import Mathlib

/-!
Fire air-quality query service: column store and worker filter logic.

A shallow embedding of `common/FireColumnModel.{hpp,cpp}` and of the worker
`team_pink/server_f.cpp`, followed by theorems about them.

Conventions of the embedding:
* `std::vector<T>` is a `List T`, `push_back` is `xs ++ [x]`, `size()` is `length`;
* `std::size_t` row positions are `Nat`, `int` / `int32` values are `Int` (they are only
  compared, never computed with);
* `double` is a type parameter `F` carrying `0`, `<` and a decision procedure for `<`;
* `std::map<std::string, std::vector<std::size_t>>` is an association list kept in key order,
  `std::set<std::string>` is a duplicate-free list kept in order;
* a read `v[i]` that C++ leaves undefined when `i >= v.size()` is a failing read (`none`) in
  the response loop of `InternalQuery`.
-/

/-- Modelled from the spec: the `FireMeasurement` message of `proto/fire_service.proto`, which
is not among the sources. Its thirteen fields are the ones written by the setters of
`InternalQuery` (server_f.cpp lines 147-159), in the order of the measurement wire shape; the
same thirteen values, in the same order, are the arguments of `insertMeasurement`. -/
structure FireMeasurement (F : Type) where
  latitude : F
  longitude : F
  datetime : String
  parameter : String
  concentration : F
  unit : String
  raw_concentration : F
  aqi : Int
  category : Int
  site_name : String
  agency_name : String
  aqs_code : String
  full_aqs_code : String
deriving DecidableEq, Repr

/-- Modelled from the spec: the `QueryFilter` message of `proto/fire_service.proto`, which is
not among the sources: filter{parameters[], site_names[], min_aqi, max_aqi}, with the accessors
used in server_f.cpp lines 104-127 and the setters used in client.cpp lines 68-73. -/
structure QueryFilter where
  parameters : List String
  site_names : List String
  min_aqi : Int
  max_aqi : Int
deriving DecidableEq, Repr

/-- Modelled from the spec: the `InternalQueryRequest` message of `proto/fire_service.proto`,
which is not among the sources. `filter = none` is `has_filter() == false`. -/
structure InternalQueryRequest where
  request_id : Int
  original_request_id : Int
  requesting_process : String
  query_type : String
  filter : Option QueryFilter
deriving DecidableEq, Repr

/-- Modelled from the spec: the `InternalQueryResponse` message of `proto/fire_service.proto`,
which is not among the sources, with the fields set in server_f.cpp lines 146-165. -/
structure InternalQueryResponse (F : Type) where
  measurements : List (FireMeasurement F)
  request_id : Int
  original_request_id : Int
  is_complete : Bool
  responding_process : String
deriving DecidableEq, Repr

/-- The comparison `a < b` of two `std::string` values: lexicographic order of the character
sequences, a proper initial segment being smaller. (The bytewise order of UTF-8 encoded text is
the order of its code point sequences.) -/
def stringLess (a b : String) : Bool := decide (a.data < b.data)

/-- The type `std::map<std::string, std::vector<std::size_t>>`: key/value pairs in key order. -/
abbrev IndexMap := List (String × List Nat)

namespace IndexMap

/-- The call `m.find(k)`: the mapped vector when the key is present, `none` for `m.end()`. -/
def find (k : String) : IndexMap → Option (List Nat)
  | [] => none
  | (k', v) :: m => if k = k' then some v else find k m

/-- The statement `m[k].push_back(i)`: `operator[]` value-initialises an empty vector under a
key that is absent (at its place in key order), then the position is appended. -/
def pushBack (k : String) (i : Nat) : IndexMap → IndexMap
  | [] => [(k, [i])]
  | (k', v) :: m =>
    if k = k' then (k', v ++ [i]) :: m
    else if stringLess k k' then (k, [i]) :: (k', v) :: m
    else (k', v) :: pushBack k i m

end IndexMap

/-- The call `s.insert(x)` on a `std::set<std::string>`: no effect when present, otherwise
the element is added at its place in order. -/
def stdSetInsert (x : String) : List String → List String
  | [] => [x]
  | y :: s =>
    if x = y then y :: s
    else if stringLess x y then x :: y :: s
    else y :: stdSetInsert x s

/-- The call `std::min(a, b)`, which is `(b < a) ? b : a`. -/
def stdMin {F : Type} [LT F] [DecidableRel (LT.lt : F → F → Prop)] (a b : F) : F :=
  if b < a then b else a

/-- The call `std::max(a, b)`, which is `(a < b) ? b : a`. -/
def stdMax {F : Type} [LT F] [DecidableRel (LT.lt : F → F → Prop)] (a b : F) : F :=
  if a < b then b else a

/-- The data members of `class FireColumnModel` (FireColumnModel.hpp lines 16-45); the thirteen
columns carry the names of their accessors. -/
structure FireColumnModel (F : Type) where
  latitudes : List F
  longitudes : List F
  datetimes : List String
  parameters : List String
  concentrations : List F
  units : List String
  rawConcentrations : List F
  aqis : List Int
  categories : List Int
  siteNames : List String
  agencyNames : List String
  aqsCodes : List String
  fullAqsCodes : List String
  site_indices : IndexMap
  parameter_indices : IndexMap
  aqs_indices : IndexMap
  unique_sites : List String
  unique_parameters : List String
  unique_agencies : List String
  datetime_range : List String
  min_latitude : F
  max_latitude : F
  min_longitude : F
  max_longitude : F
  bounds_initialized : Bool
deriving DecidableEq, Repr

namespace FireColumnModel

variable {F : Type} [Zero F] [LT F] [DecidableRel (LT.lt : F → F → Prop)]

/-- The constructor `FireColumnModel::FireColumnModel()` (FireColumnModel.cpp lines 12-16):
empty containers, the four bounds `0.0`, the flag `false`, and `_datetime_range.resize(2)`. -/
def new : FireColumnModel F where
  latitudes := []
  longitudes := []
  datetimes := []
  parameters := []
  concentrations := []
  units := []
  rawConcentrations := []
  aqis := []
  categories := []
  siteNames := []
  agencyNames := []
  aqsCodes := []
  fullAqsCodes := []
  site_indices := []
  parameter_indices := []
  aqs_indices := []
  unique_sites := []
  unique_parameters := []
  unique_agencies := []
  datetime_range := ["", ""]
  min_latitude := 0
  max_latitude := 0
  min_longitude := 0
  max_longitude := 0
  bounds_initialized := false

/-- The accessor `measurementCount()` (FireColumnModel.hpp line 82): `_latitudes.size()`. -/
def measurementCount (m : FireColumnModel F) : Nat := m.latitudes.length

/-- The accessor `siteCount()` (FireColumnModel.hpp line 83). -/
def siteCount (m : FireColumnModel F) : Nat := m.unique_sites.length

/-- The accessor `datetimeRange()` (FireColumnModel.hpp line 87). -/
def datetimeRange (m : FireColumnModel F) : List String := m.datetime_range

/-- The method `updateIndices` (FireColumnModel.cpp lines 152-158). -/
def updateIndices (m : FireColumnModel F) (index : Nat) : FireColumnModel F :=
  if index ≥ m.siteNames.length then m
  else
    { m with
      site_indices := m.site_indices.pushBack (m.siteNames.getD index "") index
      parameter_indices := m.parameter_indices.pushBack (m.parameters.getD index "") index
      aqs_indices := m.aqs_indices.pushBack (m.aqsCodes.getD index "") index }

/-- The method `updateGeographicBounds` (FireColumnModel.cpp lines 160-171). -/
def updateGeographicBounds (m : FireColumnModel F) (latitude longitude : F) :
    FireColumnModel F :=
  if !m.bounds_initialized then
    { m with
      min_latitude := latitude
      max_latitude := latitude
      min_longitude := longitude
      max_longitude := longitude
      bounds_initialized := true }
  else
    { m with
      min_latitude := stdMin m.min_latitude latitude
      max_latitude := stdMax m.max_latitude latitude
      min_longitude := stdMin m.min_longitude longitude
      max_longitude := stdMax m.max_longitude longitude }

/-- The method `updateDatetimeRange` (FireColumnModel.cpp lines 173-180): two successive
conditional assignments to `_datetime_range[0]` and `_datetime_range[1]`. -/
def updateDatetimeRange (m : FireColumnModel F) (datetime : String) : FireColumnModel F :=
  let r0 := m.datetime_range
  let r1 :=
    if (r0.getD 0 "").isEmpty ∨ stringLess datetime (r0.getD 0 "") then r0.set 0 datetime
    else r0
  let r2 :=
    if (r1.getD 1 "").isEmpty ∨ stringLess (r1.getD 1 "") datetime then r1.set 1 datetime
    else r1
  { m with datetime_range := r2 }

/-- The method `insertMeasurement` (FireColumnModel.cpp lines 96-123). -/
def insertMeasurement (m : FireColumnModel F) (latitude longitude : F)
    (datetime parameter : String) (concentration : F) (unit : String)
    (raw_concentration : F) (aqi category : Int)
    (site_name agency_name aqs_code full_aqs_code : String) : FireColumnModel F :=
  let m1 : FireColumnModel F :=
    { m with
      latitudes := m.latitudes ++ [latitude]
      longitudes := m.longitudes ++ [longitude]
      datetimes := m.datetimes ++ [datetime]
      parameters := m.parameters ++ [parameter]
      concentrations := m.concentrations ++ [concentration]
      units := m.units ++ [unit]
      rawConcentrations := m.rawConcentrations ++ [raw_concentration]
      aqis := m.aqis ++ [aqi]
      categories := m.categories ++ [category]
      siteNames := m.siteNames ++ [site_name]
      agencyNames := m.agencyNames ++ [agency_name]
      aqsCodes := m.aqsCodes ++ [aqs_code]
      fullAqsCodes := m.fullAqsCodes ++ [full_aqs_code] }
  let newIndex := m1.latitudes.length - 1
  let m2 := updateIndices m1 newIndex
  let m3 := updateGeographicBounds m2 latitude longitude
  let m4 := updateDatetimeRange m3 datetime
  { m4 with
    unique_sites := stdSetInsert site_name m4.unique_sites
    unique_parameters := stdSetInsert parameter m4.unique_parameters
    unique_agencies := stdSetInsert agency_name m4.unique_agencies }

/-- The method `getIndicesBySite` (FireColumnModel.cpp lines 125-128), a `const` method. -/
def getIndicesBySite (m : FireColumnModel F) (siteName : String) : List Nat :=
  match m.site_indices.find siteName with
  | some v => v
  | none => []

/-- The method `getIndicesByParameter` (FireColumnModel.cpp lines 130-133), a `const` method. -/
def getIndicesByParameter (m : FireColumnModel F) (parameter : String) : List Nat :=
  match m.parameter_indices.find parameter with
  | some v => v
  | none => []

/-- The method `getIndicesByAqsCode` (FireColumnModel.cpp lines 135-138), a `const` method. -/
def getIndicesByAqsCode (m : FireColumnModel F) (aqsCode : String) : List Nat :=
  match m.aqs_indices.find aqsCode with
  | some v => v
  | none => []

/-- The four output parameters of `getGeographicBounds`. -/
structure GeographicBounds (F : Type) where
  min_lat : F
  max_lat : F
  min_lon : F
  max_lon : F
deriving DecidableEq, Repr

/-- The method `getGeographicBounds` (FireColumnModel.cpp lines 140-150). -/
def getGeographicBounds (m : FireColumnModel F) : GeographicBounds F :=
  if m.bounds_initialized then
    { min_lat := m.min_latitude
      max_lat := m.max_latitude
      min_lon := m.min_longitude
      max_lon := m.max_longitude }
  else
    { min_lat := 0, max_lat := 0, min_lon := 0, max_lon := 0 }

/-- One call of `insertMeasurement` whose thirteen arguments are the fields of `r`. -/
def insert (m : FireColumnModel F) (r : FireMeasurement F) : FireColumnModel F :=
  insertMeasurement m r.latitude r.longitude r.datetime r.parameter r.concentration r.unit
    r.raw_concentration r.aqi r.category r.site_name r.agency_name r.aqs_code r.full_aqs_code

/-- The store reached from a freshly constructed one by one `insertMeasurement` call per
element of `rs`, in order. -/
def ofInserts (rs : List (FireMeasurement F)) : FireColumnModel F :=
  rs.foldl insert new

end FireColumnModel

/-- The data members of `class FireQueryServiceImpl` of the worker (server_f.cpp lines 38-44). -/
structure FireQueryServiceImpl (F : Type) where
  process_id_ : String
  role_ : String
  team_ : String
  port_ : Int
  data_model_ : FireColumnModel F

namespace FireQueryServiceImpl

variable {F : Type} [Zero F] [LT F] [DecidableRel (LT.lt : F → F → Prop)]

/-- The AQI loop of `InternalQuery` (server_f.cpp lines 119-134): `i` runs over
`0 .. all_aqis.size() - 1` and is pushed back when `matches` is still true. -/
def aqiRangeScan (all_aqis : List Int) (min_aqi max_aqi : Int) : List Nat :=
  (List.range all_aqis.length).foldl
    (fun matching_indices i =>
      let aqi := all_aqis.getD i 0
      let matches0 := true
      let matches1 := if min_aqi > 0 ∧ aqi < min_aqi then false else matches0
      let matches2 := if max_aqi > 0 ∧ aqi > max_aqi then false else matches1
      if matches2 then matching_indices ++ [i] else matching_indices)
    []

/-- The selection part of `InternalQuery` (server_f.cpp lines 98-142): the value of
`matching_indices` when the response loop starts. -/
def matchingIndices (s : FireQueryServiceImpl F) (request : InternalQueryRequest) : List Nat :=
  match request.filter with
  | some filter =>
    if filter.parameters.length > 0 then
      s.data_model_.getIndicesByParameter (filter.parameters.getD 0 "")
    else if filter.site_names.length > 0 then
      s.data_model_.getIndicesBySite (filter.site_names.getD 0 "")
    else if filter.min_aqi > 0 ∨ filter.max_aqi > 0 then
      aqiRangeScan s.data_model_.aqis filter.min_aqi filter.max_aqi
    else
      []
  | none =>
    (List.range s.data_model_.measurementCount).foldl
      (fun matching_indices i => matching_indices ++ [i]) []

/-- One iteration of the response loop of `InternalQuery` (server_f.cpp lines 146-159): the
thirteen column reads at `idx`; a read past the end of a column has no defined value. -/
def measurementAt (m : FireColumnModel F) (idx : Nat) : Option (FireMeasurement F) := do
  let latitude ← m.latitudes[idx]?
  let longitude ← m.longitudes[idx]?
  let datetime ← m.datetimes[idx]?
  let parameter ← m.parameters[idx]?
  let concentration ← m.concentrations[idx]?
  let unit ← m.units[idx]?
  let raw_concentration ← m.rawConcentrations[idx]?
  let aqi ← m.aqis[idx]?
  let category ← m.categories[idx]?
  let site_name ← m.siteNames[idx]?
  let agency_name ← m.agencyNames[idx]?
  let aqs_code ← m.aqsCodes[idx]?
  let full_aqs_code ← m.fullAqsCodes[idx]?
  pure
    { latitude := latitude
      longitude := longitude
      datetime := datetime
      parameter := parameter
      concentration := concentration
      unit := unit
      raw_concentration := raw_concentration
      aqi := aqi
      category := category
      site_name := site_name
      agency_name := agency_name
      aqs_code := aqs_code
      full_aqs_code := full_aqs_code }

/-- The response loop of `InternalQuery` (server_f.cpp lines 145-160): one `add_measurements`
per element of `matching_indices`, in order. -/
def materialize (m : FireColumnModel F) (matching_indices : List Nat) :
    Option (List (FireMeasurement F)) :=
  matching_indices.foldl
    (fun measurements idx =>
      match measurements, measurementAt m idx with
      | some ms, some r => some (ms ++ [r])
      | _, _ => none)
    (some [])

/-- The method `InternalQuery` of the worker (server_f.cpp lines 88-171); the returned status
is always `Status::OK`, `none` stands for a column read out of bounds. -/
def InternalQuery (s : FireQueryServiceImpl F) (request : InternalQueryRequest) :
    Option (InternalQueryResponse F) :=
  match materialize s.data_model_ (matchingIndices s request) with
  | some measurements =>
    some
      { measurements := measurements
        request_id := request.request_id
        original_request_id := request.original_request_id
        is_complete := true
        responding_process := s.process_id_ }
  | none => none

end FireQueryServiceImpl

/-! ## Specification vocabulary and example data -/

namespace IndexMap

/-- The keys of the map are strictly increasing, as in every `std::map`. -/
def Sorted (m : IndexMap) : Prop := m.Pairwise (fun a b => a.1 < b.1)

end IndexMap

/-- The row positions of a column that hold the key `k`, in increasing order. -/
def positionsOf (col : List String) (k : String) : List Nat :=
  (List.range col.length).filter (fun i => decide (col[i]? = some k))

/-- The three rows of the filter-priority scenario: rows 0 and 1 have parameter "PM2.5" at
"SiteB", row 2 has parameter "PM10" at "SiteA". -/
def priorityRows : List (FireMeasurement Int) :=
  [ { latitude := 37, longitude := -122, datetime := "2020-08-10T01:00", parameter := "PM2.5",
      concentration := 12, unit := "UG/M3", raw_concentration := 12, aqi := 50, category := 1,
      site_name := "SiteB", agency_name := "AgencyB", aqs_code := "060010001",
      full_aqs_code := "840060010001" },
    { latitude := 37, longitude := -122, datetime := "2020-08-10T02:00", parameter := "PM2.5",
      concentration := 40, unit := "UG/M3", raw_concentration := 40, aqi := 112, category := 3,
      site_name := "SiteB", agency_name := "AgencyB", aqs_code := "060010001",
      full_aqs_code := "840060010001" },
    { latitude := 38, longitude := -121, datetime := "2020-08-10T01:00", parameter := "PM10",
      concentration := 20, unit := "UG/M3", raw_concentration := 20, aqi := 19, category := 1,
      site_name := "SiteA", agency_name := "AgencyA", aqs_code := "060670002",
      full_aqs_code := "840060670002" } ]

/-- A worker process F whose store holds `priorityRows`. -/
def priorityWorker : FireQueryServiceImpl Int where
  process_id_ := "F"
  role_ := "worker"
  team_ := "pink"
  port_ := 50056
  data_model_ := FireColumnModel.ofInserts priorityRows

/-- An internal query from the team leader carrying the filter `filter`, or none. -/
def leaderRequest (filter : Option QueryFilter) : InternalQueryRequest where
  request_id := 12345
  original_request_id := 12345
  requesting_process := "E"
  query_type := "filter"
  filter := filter

/-- A record at latitude `lat` and longitude `lon`. -/
def recordAt (lat lon : Int) : FireMeasurement Int where
  latitude := lat
  longitude := lon
  datetime := "2020-08-10T01:00"
  parameter := "PM2.5"
  concentration := 12
  unit := "UG/M3"
  raw_concentration := 12
  aqi := 50
  category := 1
  site_name := "SiteA"
  agency_name := "AgencyA"
  aqs_code := "060670002"
  full_aqs_code := "840060670002"

/-! ## Data loading and the client-facing handlers of the workers -/

namespace FireColumnModel

variable {F : Type} [LT F] [DecidableRel (LT.lt : F → F → Prop)]

/-- The body of the `while` loop of `readFromCSV` (FireColumnModel.cpp lines 57-90) on the pair
of the store and `headerSkipped`. The library calls `std::stod` and `std::stoi`, which throw on
text they cannot convert, are the parameters `stod` and `stoi`; a throw in the `try` block is
`none` and is answered by `continue`. -/
def readFromCSVRow (stod : String → Option F) (stoi : String → Option Int)
    (state : FireColumnModel F × Bool) (row : List String) : FireColumnModel F × Bool :=
  let m := state.1
  let headerSkipped := state.2
  if !headerSkipped then (m, true)
  else if row.length < 13 then (m, headerSkipped)
  else
    let attempt : Option (FireColumnModel F) := do
      let latitude ← stod (row.getD 0 "")
      let longitude ← stod (row.getD 1 "")
      let datetime := row.getD 2 ""
      let parameter := row.getD 3 ""
      let concentration ← stod (row.getD 4 "")
      let unit := row.getD 5 ""
      let raw_concentration ← stod (row.getD 6 "")
      let aqi ← stoi (row.getD 7 "")
      let category ← stoi (row.getD 8 "")
      let site_name := row.getD 9 ""
      let agency_name := row.getD 10 ""
      let aqs_code := row.getD 11 ""
      let full_aqs_code := row.getD 12 ""
      pure (insertMeasurement m latitude longitude datetime parameter concentration unit
        raw_concentration aqi category site_name agency_name aqs_code full_aqs_code)
    match attempt with
    | some m' => (m', headerSkipped)
    | none => (m, headerSkipped)

/-- The method `readFromCSV` (FireColumnModel.cpp lines 47-94) on a source that opened and
whose `readRow` calls deliver `rows`, in order (class `CSVReader` is not among the sources). -/
def readFromCSV (stod : String → Option F) (stoi : String → Option Int)
    (m : FireColumnModel F) (rows : List (List String)) : FireColumnModel F :=
  (rows.foldl (readFromCSVRow stod stoi) (m, false)).1

end FireColumnModel

/-- Modelled from the spec: the `QueryRequest` message of `proto/fire_service.proto`, which is
not among the sources, with the fields set by the client (client.cpp lines 62-73). -/
structure QueryRequest where
  request_id : Int
  query_type : String
  require_chunked : Bool
  max_results_per_chunk : Int
  filter : Option QueryFilter
deriving DecidableEq, Repr

/-- Modelled from the spec: the `QueryResponseChunk` message of `proto/fire_service.proto`,
which is not among the sources, with the fields set in server_f.cpp lines 73-78 and read in
client.cpp lines 87-110. -/
structure QueryResponseChunk (F : Type) where
  request_id : Int
  chunk_number : Int
  is_last_chunk : Bool
  total_chunks : Int
  total_results : Int
  measurements : List (FireMeasurement F)
deriving DecidableEq, Repr

/-- Modelled from the spec: the `StatusRequest` message of `proto/fire_service.proto`, which is
not among the sources, with the fields set in client.cpp lines 131-133. -/
structure StatusRequest where
  request_id : Int
  action : String
deriving DecidableEq, Repr

/-- Modelled from the spec: the `StatusResponse` message of `proto/fire_service.proto`, which
is not among the sources, with the fields set in server_f.cpp lines 182-185. -/
structure StatusResponse where
  request_id : Int
  status : String
  chunks_delivered : Int
  total_chunks : Int
deriving DecidableEq, Repr

namespace FireQueryServiceImpl

variable {F : Type}

/-- The method `Query` of worker F (server_f.cpp lines 66-82): the chunks written to `writer`,
in order, and the service after the call. No data member is assigned; the returned status is
`Status::OK`. -/
def Query (s : FireQueryServiceImpl F) (request : QueryRequest) :
    List (QueryResponseChunk F) × FireQueryServiceImpl F :=
  let chunk : QueryResponseChunk F :=
    { request_id := request.request_id
      chunk_number := 0
      is_last_chunk := true
      total_chunks := 1
      total_results := 0
      measurements := [] }
  ([chunk], s)

/-- The method `CancelRequest` of worker F (server_f.cpp lines 176-188): the response and the
service after the call. No data member is assigned; the returned status is `Status::OK`. -/
def CancelRequest (s : FireQueryServiceImpl F) (request : StatusRequest) :
    StatusResponse × FireQueryServiceImpl F :=
  ({ request_id := request.request_id
     status := "cancelled"
     chunks_delivered := 0
     total_chunks := 0 }, s)

/-- The method `GetStatus` of worker F (server_f.cpp lines 193-205): the response and the
service after the call. No data member is assigned; the returned status is `Status::OK`. -/
def GetStatus (s : FireQueryServiceImpl F) (request : StatusRequest) :
    StatusResponse × FireQueryServiceImpl F :=
  ({ request_id := request.request_id
     status := "pending"
     chunks_delivered := 0
     total_chunks := 0 }, s)

end FireQueryServiceImpl

namespace ServerD

/-- The data members of `class FireQueryServiceImpl` of worker D (server_d.cpp lines 38-42),
which holds no column store. -/
structure FireQueryServiceImpl where
  process_id_ : String
  role_ : String
  team_ : String
  port_ : Int
deriving DecidableEq, Repr

namespace FireQueryServiceImpl

/-- The method `Query` of worker D (server_d.cpp lines 60-76): the chunks written to `writer`,
in order, and the service after the call. -/
def Query {F : Type} (s : FireQueryServiceImpl) (request : QueryRequest) :
    List (QueryResponseChunk F) × FireQueryServiceImpl :=
  let chunk : QueryResponseChunk F :=
    { request_id := request.request_id
      chunk_number := 0
      is_last_chunk := true
      total_chunks := 1
      total_results := 0
      measurements := [] }
  ([chunk], s)

/-- The method `CancelRequest` of worker D (server_d.cpp lines 110-122). -/
def CancelRequest (s : FireQueryServiceImpl) (request : StatusRequest) :
    StatusResponse × FireQueryServiceImpl :=
  ({ request_id := request.request_id
     status := "cancelled"
     chunks_delivered := 0
     total_chunks := 0 }, s)

/-- The method `GetStatus` of worker D (server_d.cpp lines 127-139). -/
def GetStatus (s : FireQueryServiceImpl) (request : StatusRequest) :
    StatusResponse × FireQueryServiceImpl :=
  ({ request_id := request.request_id
     status := "pending"
     chunks_delivered := 0
     total_chunks := 0 }, s)

end FireQueryServiceImpl

end ServerD

/-- A record whose timestamp is `datetime`. -/
def recordDated (datetime : String) : FireMeasurement Int where
  latitude := 37
  longitude := -122
  datetime := datetime
  parameter := "PM2.5"
  concentration := 12
  unit := "UG/M3"
  raw_concentration := 12
  aqi := 50
  category := 1
  site_name := "SiteA"
  agency_name := "AgencyA"
  aqs_code := "060670002"
  full_aqs_code := "840060670002"

/-- A worker process D. -/
def workerD : ServerD.FireQueryServiceImpl where
  process_id_ := "D"
  role_ := "worker"
  team_ := "pink"
  port_ := 50054

/-- A conversion of the decimal numerals "0" to "99", with an optional leading "-", that
fails on every other text. -/
def parseSmallInt (s : String) : Option Int :=
  let digit (c : Char) : Option Int :=
    if '0' ≤ c ∧ c ≤ '9' then some (Int.ofNat (c.toNat - '0'.toNat)) else none
  match s.data with
  | [a] => digit a
  | ['-', a] => (digit a).map (fun n => -n)
  | [a, b] => do
    let x ← digit a
    let y ← digit b
    pure (10 * x + y)
  | ['-', a, b] => do
    let x ← digit a
    let y ← digit b
    pure (-(10 * x + y))
  | _ => none

/-- Text of a source: a header line, a well-formed row, a row with 12 fields, a row whose AQI
field is not a number, and a second well-formed row. -/
def sampleRows : List (List String) :=
  [ ["Latitude", "Longitude", "UTC", "Parameter", "Concentration", "Unit",
      "RawConcentration", "AQI", "Category", "SiteName", "AgencyName", "AQSCode", "FullAQSCode"],
    ["37", "-12", "2020-08-10T01:00", "PM2.5", "12", "UG/M3", "12", "50", "1", "SiteB",
      "AgencyB", "060010001", "840060010001"],
    ["37", "-12", "2020-08-10T02:00", "PM2.5", "12", "UG/M3", "12", "50", "1", "SiteB",
      "AgencyB", "060010001"],
    ["37", "-12", "2020-08-10T03:00", "PM2.5", "12", "UG/M3", "12", "n/a", "1", "SiteB",
      "AgencyB", "060010001", "840060010001"],
    ["38", "-13", "2020-08-10T04:00", "PM10", "20", "UG/M3", "20", "19", "1", "SiteA",
      "AgencyA", "060670002", "840060670002"] ]

/-- A row of a source as the record it denotes, in the words of the specification: the row is
well formed when it has at least 13 fields and its latitude, longitude, concentration, raw
concentration, AQI and category fields are converted by the parsers; any other row denotes no
record. -/
def wellFormedRow {F : Type} (stod : String → Option F) (stoi : String → Option Int)
    (row : List String) : Option (FireMeasurement F) :=
  if row.length < 13 then none
  else
    match stod (row.getD 0 ""), stod (row.getD 1 ""), stod (row.getD 4 ""),
      stod (row.getD 6 ""), stoi (row.getD 7 ""), stoi (row.getD 8 "") with
    | some latitude, some longitude, some concentration, some raw_concentration, some aqi,
      some category =>
      some
        { latitude := latitude
          longitude := longitude
          datetime := row.getD 2 ""
          parameter := row.getD 3 ""
          concentration := concentration
          unit := row.getD 5 ""
          raw_concentration := raw_concentration
          aqi := aqi
          category := category
          site_name := row.getD 9 ""
          agency_name := row.getD 10 ""
          aqs_code := row.getD 11 ""
          full_aqs_code := row.getD 12 "" }
    | _, _, _, _, _, _ => none

/-- The page count of the specification for `T` results and page size `S`: the ceiling of
`T / S`, and 1 when `T = 0`. -/
def specTotalChunks (T S : Int) : Int :=
  if T = 0 then 1 else (T + S - 1) / S

/-- The client query of the first test of the client (client.cpp lines 199-201): request id
12345, parameters "PM2.5" and "PM10", AQI bounds 0 and 100, page size 100. -/
def clientQuery : QueryRequest where
  request_id := 12345
  query_type := "filter"
  require_chunked := true
  max_results_per_chunk := 100
  filter := some ⟨["PM2.5", "PM10"], [], 0, 100⟩

/-! ## Helper lemmas -/

/-- The comparison `stringLess` is the strict order of `String`. -/
theorem stringLess_iff (a b : String) : stringLess a b = true ↔ a < b := by
  simp [stringLess, String.lt_iff_toList_lt]

namespace IndexMap

theorem find_eq_none_of_forall_ne (k : String) (m : IndexMap)
    (h : ∀ kv ∈ m, k ≠ kv.1) : find k m = none := by
  induction m with
  | nil => rfl
  | cons kv m ih =>
    obtain ⟨k0, v⟩ := kv
    have h0 : k ≠ k0 := h (k0, v) (List.mem_cons_self _ _)
    simp only [find, h0, if_false]
    exact ih (fun kv hkv => h kv (List.mem_cons_of_mem _ hkv))

theorem mem_pushBack_key (k : String) (i : Nat) (m : IndexMap) (kv : String × List Nat)
    (h : kv ∈ pushBack k i m) : kv.1 = k ∨ ∃ kv' ∈ m, kv'.1 = kv.1 := by
  induction m with
  | nil =>
    simp only [pushBack, List.mem_singleton] at h
    left; rw [h]
  | cons kv0 m ih =>
    obtain ⟨k0, v⟩ := kv0
    unfold pushBack at h
    split_ifs at h with h1 h2
    · rcases List.mem_cons.mp h with h | h
      · right; exact ⟨(k0, v), List.mem_cons_self _ _, by rw [h]⟩
      · right; exact ⟨kv, List.mem_cons_of_mem _ h, rfl⟩
    · rcases List.mem_cons.mp h with h | h
      · left; rw [h]
      · right; exact ⟨kv, h, rfl⟩
    · rcases List.mem_cons.mp h with h | h
      · right; exact ⟨(k0, v), List.mem_cons_self _ _, by rw [h]⟩
      · rcases ih h with h | ⟨kv', hm, he⟩
        · left; exact h
        · right; exact ⟨kv', List.mem_cons_of_mem _ hm, he⟩

theorem pushBack_sorted (k : String) (i : Nat) (m : IndexMap) (hs : Sorted m) :
    Sorted (pushBack k i m) := by
  induction m with
  | nil => simp [pushBack, Sorted]
  | cons kv0 m ih =>
    obtain ⟨k0, v⟩ := kv0
    have hs' := List.pairwise_cons.mp hs
    unfold pushBack
    split_ifs with h1 h2
    · exact List.pairwise_cons.mpr ⟨hs'.1, hs'.2⟩
    · have hlt : k < k0 := (stringLess_iff k k0).mp h2
      refine List.pairwise_cons.mpr ⟨?_, hs⟩
      intro kv hkv
      rcases List.mem_cons.mp hkv with h | h
      · rw [h]; exact hlt
      · exact lt_trans hlt (hs'.1 kv h)
    · have hge : ¬ k < k0 := fun h => h2 ((stringLess_iff k k0).mpr h)
      have hlt : k0 < k := lt_of_le_of_ne (not_lt.mp hge) (fun e => h1 e.symm)
      refine List.pairwise_cons.mpr ⟨?_, ih hs'.2⟩
      intro kv hkv
      rcases mem_pushBack_key k i m kv hkv with h | ⟨kv', hm, he⟩
      · rw [h]; exact hlt
      · rw [← he]; exact hs'.1 kv' hm

theorem find_pushBack (k k' : String) (i : Nat) (m : IndexMap) (hs : Sorted m) :
    find k (pushBack k' i m) =
      if k = k' then some ((find k m).getD [] ++ [i]) else find k m := by
  induction m with
  | nil =>
    by_cases h : k = k' <;> simp [pushBack, find, h]
  | cons kv m ih =>
    obtain ⟨k0, v⟩ := kv
    have hs' := List.pairwise_cons.mp hs
    by_cases h0 : k' = k0
    · subst h0
      by_cases h : k = k' <;> simp [pushBack, find, h]
    · by_cases hlt : stringLess k' k0 = true
      · by_cases h : k = k'
        · subst h
          have hk : k < k0 := (stringLess_iff k k0).mp hlt
          have hnone : find k m = none :=
            find_eq_none_of_forall_ne k m
              (fun kv hkv => ne_of_lt (lt_trans hk (hs'.1 kv hkv)))
          simp [pushBack, find, h0, hlt, hnone]
        · simp [pushBack, find, h0, hlt, h]
      · by_cases h : k = k0
        · subst h
          have hne : ¬ k = k' := fun e => h0 e.symm
          simp [pushBack, find, h0, hlt, hne]
        · simp [pushBack, find, h0, hlt, h, ih hs'.2]

end IndexMap

theorem positionsOf_snoc (col : List String) (x k : String) :
    positionsOf (col ++ [x]) k = positionsOf col k ++ (if x = k then [col.length] else []) := by
  unfold positionsOf
  rw [List.length_append, List.length_singleton, List.range_succ, List.filter_append]
  congr 1
  · apply List.filter_congr
    intro i hi
    rw [List.getElem?_append_left (List.mem_range.mp hi)]
  · by_cases h : x = k <;> simp [h]

theorem positionsOf_lt (col : List String) (k : String) (i : Nat) (h : i ∈ positionsOf col k) :
    i < col.length :=
  List.mem_range.mp (List.mem_filter.mp h).1

theorem positionsOf_pairwise (col : List String) (k : String) :
    (positionsOf col k).Pairwise (fun a b => a < b) :=
  List.Pairwise.filter _ (List.pairwise_lt_range col.length)

theorem positionsOf_eq_nil (col : List String) (k : String) (h : k ∉ col) :
    positionsOf col k = [] := by
  unfold positionsOf
  rw [List.filter_eq_nil_iff]
  intro i _ hi
  have hk : col[i]? = some k := of_decide_eq_true hi
  exact h (List.getElem?_mem hk)

theorem getD_snoc_length (l : List String) (x : String) (n : Nat) (h : n = l.length) :
    (l ++ [x]).getD n "" = x := by
  subst h
  simp [List.getD_eq_getElem?_getD]

namespace FireColumnModel

section insertLemmas

variable {F : Type} [LT F] [DecidableRel (LT.lt : F → F → Prop)]

theorem insert_latitudes (m : FireColumnModel F) (r : FireMeasurement F) :
    (insert m r).latitudes = m.latitudes ++ [r.latitude] := by
  unfold insert insertMeasurement updateDatetimeRange updateGeographicBounds updateIndices
  simp only []
  split_ifs <;> rfl

theorem insert_longitudes (m : FireColumnModel F) (r : FireMeasurement F) :
    (insert m r).longitudes = m.longitudes ++ [r.longitude] := by
  unfold insert insertMeasurement updateDatetimeRange updateGeographicBounds updateIndices
  simp only []
  split_ifs <;> rfl

theorem insert_datetimes (m : FireColumnModel F) (r : FireMeasurement F) :
    (insert m r).datetimes = m.datetimes ++ [r.datetime] := by
  unfold insert insertMeasurement updateDatetimeRange updateGeographicBounds updateIndices
  simp only []
  split_ifs <;> rfl

theorem insert_parameters (m : FireColumnModel F) (r : FireMeasurement F) :
    (insert m r).parameters = m.parameters ++ [r.parameter] := by
  unfold insert insertMeasurement updateDatetimeRange updateGeographicBounds updateIndices
  simp only []
  split_ifs <;> rfl

theorem insert_concentrations (m : FireColumnModel F) (r : FireMeasurement F) :
    (insert m r).concentrations = m.concentrations ++ [r.concentration] := by
  unfold insert insertMeasurement updateDatetimeRange updateGeographicBounds updateIndices
  simp only []
  split_ifs <;> rfl

theorem insert_units (m : FireColumnModel F) (r : FireMeasurement F) :
    (insert m r).units = m.units ++ [r.unit] := by
  unfold insert insertMeasurement updateDatetimeRange updateGeographicBounds updateIndices
  simp only []
  split_ifs <;> rfl

theorem insert_rawConcentrations (m : FireColumnModel F) (r : FireMeasurement F) :
    (insert m r).rawConcentrations = m.rawConcentrations ++ [r.raw_concentration] := by
  unfold insert insertMeasurement updateDatetimeRange updateGeographicBounds updateIndices
  simp only []
  split_ifs <;> rfl

theorem insert_aqis (m : FireColumnModel F) (r : FireMeasurement F) :
    (insert m r).aqis = m.aqis ++ [r.aqi] := by
  unfold insert insertMeasurement updateDatetimeRange updateGeographicBounds updateIndices
  simp only []
  split_ifs <;> rfl

theorem insert_categories (m : FireColumnModel F) (r : FireMeasurement F) :
    (insert m r).categories = m.categories ++ [r.category] := by
  unfold insert insertMeasurement updateDatetimeRange updateGeographicBounds updateIndices
  simp only []
  split_ifs <;> rfl

theorem insert_siteNames (m : FireColumnModel F) (r : FireMeasurement F) :
    (insert m r).siteNames = m.siteNames ++ [r.site_name] := by
  unfold insert insertMeasurement updateDatetimeRange updateGeographicBounds updateIndices
  simp only []
  split_ifs <;> rfl

theorem insert_agencyNames (m : FireColumnModel F) (r : FireMeasurement F) :
    (insert m r).agencyNames = m.agencyNames ++ [r.agency_name] := by
  unfold insert insertMeasurement updateDatetimeRange updateGeographicBounds updateIndices
  simp only []
  split_ifs <;> rfl

theorem insert_aqsCodes (m : FireColumnModel F) (r : FireMeasurement F) :
    (insert m r).aqsCodes = m.aqsCodes ++ [r.aqs_code] := by
  unfold insert insertMeasurement updateDatetimeRange updateGeographicBounds updateIndices
  simp only []
  split_ifs <;> rfl

theorem insert_fullAqsCodes (m : FireColumnModel F) (r : FireMeasurement F) :
    (insert m r).fullAqsCodes = m.fullAqsCodes ++ [r.full_aqs_code] := by
  unfold insert insertMeasurement updateDatetimeRange updateGeographicBounds updateIndices
  simp only []
  split_ifs <;> rfl

theorem insert_site_indices (m : FireColumnModel F) (r : FireMeasurement F)
    (h : m.siteNames.length = m.latitudes.length) :
    (insert m r).site_indices = m.site_indices.pushBack r.site_name m.latitudes.length := by
  unfold insert insertMeasurement updateDatetimeRange updateGeographicBounds updateIndices
  simp only [List.length_append, List.length_singleton, Nat.add_sub_cancel, h, ge_iff_le,
    Nat.not_succ_le_self, if_false]
  rw [getD_snoc_length m.siteNames r.site_name _ h.symm]
  split_ifs <;> rfl

theorem insert_parameter_indices (m : FireColumnModel F) (r : FireMeasurement F)
    (h : m.siteNames.length = m.latitudes.length)
    (hc : m.parameters.length = m.latitudes.length) :
    (insert m r).parameter_indices = m.parameter_indices.pushBack r.parameter m.latitudes.length := by
  unfold insert insertMeasurement updateDatetimeRange updateGeographicBounds updateIndices
  simp only [List.length_append, List.length_singleton, Nat.add_sub_cancel, h, ge_iff_le,
    Nat.not_succ_le_self, if_false]
  rw [getD_snoc_length m.parameters r.parameter _ hc.symm]
  split_ifs <;> rfl

theorem insert_aqs_indices (m : FireColumnModel F) (r : FireMeasurement F)
    (h : m.siteNames.length = m.latitudes.length)
    (hc : m.aqsCodes.length = m.latitudes.length) :
    (insert m r).aqs_indices = m.aqs_indices.pushBack r.aqs_code m.latitudes.length := by
  unfold insert insertMeasurement updateDatetimeRange updateGeographicBounds updateIndices
  simp only [List.length_append, List.length_singleton, Nat.add_sub_cancel, h, ge_iff_le,
    Nat.not_succ_le_self, if_false]
  rw [getD_snoc_length m.aqsCodes r.aqs_code _ hc.symm]
  split_ifs <;> rfl

end insertLemmas

section ofInsertsLemmas

variable {F : Type} [Zero F] [LT F] [DecidableRel (LT.lt : F → F → Prop)]

theorem ofInserts_nil : ofInserts ([] : List (FireMeasurement F)) = new := rfl

theorem ofInserts_snoc (rs : List (FireMeasurement F)) (r : FireMeasurement F) :
    ofInserts (rs ++ [r]) = insert (ofInserts rs) r := by
  simp [ofInserts, List.foldl_append]

theorem ofInserts_latitudes (rs : List (FireMeasurement F)) :
    (ofInserts rs).latitudes = rs.map (fun r => r.latitude) := by
  induction rs using List.reverseRecOn with
  | nil => rfl
  | append_singleton rs r ih => rw [ofInserts_snoc, insert_latitudes, ih, List.map_append]; rfl

theorem ofInserts_longitudes (rs : List (FireMeasurement F)) :
    (ofInserts rs).longitudes = rs.map (fun r => r.longitude) := by
  induction rs using List.reverseRecOn with
  | nil => rfl
  | append_singleton rs r ih => rw [ofInserts_snoc, insert_longitudes, ih, List.map_append]; rfl

theorem ofInserts_datetimes (rs : List (FireMeasurement F)) :
    (ofInserts rs).datetimes = rs.map (fun r => r.datetime) := by
  induction rs using List.reverseRecOn with
  | nil => rfl
  | append_singleton rs r ih => rw [ofInserts_snoc, insert_datetimes, ih, List.map_append]; rfl

theorem ofInserts_parameters (rs : List (FireMeasurement F)) :
    (ofInserts rs).parameters = rs.map (fun r => r.parameter) := by
  induction rs using List.reverseRecOn with
  | nil => rfl
  | append_singleton rs r ih => rw [ofInserts_snoc, insert_parameters, ih, List.map_append]; rfl

theorem ofInserts_concentrations (rs : List (FireMeasurement F)) :
    (ofInserts rs).concentrations = rs.map (fun r => r.concentration) := by
  induction rs using List.reverseRecOn with
  | nil => rfl
  | append_singleton rs r ih => rw [ofInserts_snoc, insert_concentrations, ih, List.map_append]; rfl

theorem ofInserts_units (rs : List (FireMeasurement F)) :
    (ofInserts rs).units = rs.map (fun r => r.unit) := by
  induction rs using List.reverseRecOn with
  | nil => rfl
  | append_singleton rs r ih => rw [ofInserts_snoc, insert_units, ih, List.map_append]; rfl

theorem ofInserts_rawConcentrations (rs : List (FireMeasurement F)) :
    (ofInserts rs).rawConcentrations = rs.map (fun r => r.raw_concentration) := by
  induction rs using List.reverseRecOn with
  | nil => rfl
  | append_singleton rs r ih => rw [ofInserts_snoc, insert_rawConcentrations, ih, List.map_append]; rfl

theorem ofInserts_aqis (rs : List (FireMeasurement F)) :
    (ofInserts rs).aqis = rs.map (fun r => r.aqi) := by
  induction rs using List.reverseRecOn with
  | nil => rfl
  | append_singleton rs r ih => rw [ofInserts_snoc, insert_aqis, ih, List.map_append]; rfl

theorem ofInserts_categories (rs : List (FireMeasurement F)) :
    (ofInserts rs).categories = rs.map (fun r => r.category) := by
  induction rs using List.reverseRecOn with
  | nil => rfl
  | append_singleton rs r ih => rw [ofInserts_snoc, insert_categories, ih, List.map_append]; rfl

theorem ofInserts_siteNames (rs : List (FireMeasurement F)) :
    (ofInserts rs).siteNames = rs.map (fun r => r.site_name) := by
  induction rs using List.reverseRecOn with
  | nil => rfl
  | append_singleton rs r ih => rw [ofInserts_snoc, insert_siteNames, ih, List.map_append]; rfl

theorem ofInserts_agencyNames (rs : List (FireMeasurement F)) :
    (ofInserts rs).agencyNames = rs.map (fun r => r.agency_name) := by
  induction rs using List.reverseRecOn with
  | nil => rfl
  | append_singleton rs r ih => rw [ofInserts_snoc, insert_agencyNames, ih, List.map_append]; rfl

theorem ofInserts_aqsCodes (rs : List (FireMeasurement F)) :
    (ofInserts rs).aqsCodes = rs.map (fun r => r.aqs_code) := by
  induction rs using List.reverseRecOn with
  | nil => rfl
  | append_singleton rs r ih => rw [ofInserts_snoc, insert_aqsCodes, ih, List.map_append]; rfl

theorem ofInserts_fullAqsCodes (rs : List (FireMeasurement F)) :
    (ofInserts rs).fullAqsCodes = rs.map (fun r => r.full_aqs_code) := by
  induction rs using List.reverseRecOn with
  | nil => rfl
  | append_singleton rs r ih => rw [ofInserts_snoc, insert_fullAqsCodes, ih, List.map_append]; rfl

theorem ofInserts_length_eq (rs : List (FireMeasurement F)) :
    (ofInserts rs).siteNames.length = (ofInserts rs).latitudes.length ∧
    (ofInserts rs).parameters.length = (ofInserts rs).latitudes.length ∧
    (ofInserts rs).aqsCodes.length = (ofInserts rs).latitudes.length ∧
    (ofInserts rs).latitudes.length = rs.length := by
  simp [ofInserts_siteNames, ofInserts_parameters, ofInserts_aqsCodes, ofInserts_latitudes]

theorem ofInserts_site_indices (rs : List (FireMeasurement F)) :
    (ofInserts rs).site_indices.Sorted ∧
    ∀ k, ((ofInserts rs).site_indices.find k).getD [] = positionsOf (ofInserts rs).siteNames k := by
  induction rs using List.reverseRecOn with
  | nil => exact ⟨List.Pairwise.nil, fun k => rfl⟩
  | append_singleton rs r ih =>
    have hl := ofInserts_length_eq rs
    rw [ofInserts_snoc, insert_site_indices _ _ hl.1, insert_siteNames]
    refine ⟨IndexMap.pushBack_sorted _ _ _ ih.1, fun k => ?_⟩
    rw [IndexMap.find_pushBack _ _ _ _ ih.1, positionsOf_snoc, ← ih.2 k]
    by_cases h : k = r.site_name
    · subst h
      simp [hl]
    · have h' : ¬ r.site_name = k := fun e => h e.symm
      simp [h, h']

theorem getIndicesBySite_ofInserts (rs : List (FireMeasurement F)) (k : String) :
    getIndicesBySite (ofInserts rs) k = positionsOf (ofInserts rs).siteNames k := by
  rw [← (ofInserts_site_indices rs).2 k]
  unfold getIndicesBySite
  cases IndexMap.find k (ofInserts rs).site_indices <;> rfl

theorem ofInserts_parameter_indices (rs : List (FireMeasurement F)) :
    (ofInserts rs).parameter_indices.Sorted ∧
    ∀ k, ((ofInserts rs).parameter_indices.find k).getD [] = positionsOf (ofInserts rs).parameters k := by
  induction rs using List.reverseRecOn with
  | nil => exact ⟨List.Pairwise.nil, fun k => rfl⟩
  | append_singleton rs r ih =>
    have hl := ofInserts_length_eq rs
    rw [ofInserts_snoc, insert_parameter_indices _ _ hl.1 hl.2.1, insert_parameters]
    refine ⟨IndexMap.pushBack_sorted _ _ _ ih.1, fun k => ?_⟩
    rw [IndexMap.find_pushBack _ _ _ _ ih.1, positionsOf_snoc, ← ih.2 k]
    by_cases h : k = r.parameter
    · subst h
      simp [hl]
    · have h' : ¬ r.parameter = k := fun e => h e.symm
      simp [h, h']

theorem getIndicesByParameter_ofInserts (rs : List (FireMeasurement F)) (k : String) :
    getIndicesByParameter (ofInserts rs) k = positionsOf (ofInserts rs).parameters k := by
  rw [← (ofInserts_parameter_indices rs).2 k]
  unfold getIndicesByParameter
  cases IndexMap.find k (ofInserts rs).parameter_indices <;> rfl

theorem ofInserts_aqs_indices (rs : List (FireMeasurement F)) :
    (ofInserts rs).aqs_indices.Sorted ∧
    ∀ k, ((ofInserts rs).aqs_indices.find k).getD [] = positionsOf (ofInserts rs).aqsCodes k := by
  induction rs using List.reverseRecOn with
  | nil => exact ⟨List.Pairwise.nil, fun k => rfl⟩
  | append_singleton rs r ih =>
    have hl := ofInserts_length_eq rs
    rw [ofInserts_snoc, insert_aqs_indices _ _ hl.1 hl.2.2.1, insert_aqsCodes]
    refine ⟨IndexMap.pushBack_sorted _ _ _ ih.1, fun k => ?_⟩
    rw [IndexMap.find_pushBack _ _ _ _ ih.1, positionsOf_snoc, ← ih.2 k]
    by_cases h : k = r.aqs_code
    · subst h
      simp [hl]
    · have h' : ¬ r.aqs_code = k := fun e => h e.symm
      simp [h, h']

theorem getIndicesByAqsCode_ofInserts (rs : List (FireMeasurement F)) (k : String) :
    getIndicesByAqsCode (ofInserts rs) k = positionsOf (ofInserts rs).aqsCodes k := by
  rw [← (ofInserts_aqs_indices rs).2 k]
  unfold getIndicesByAqsCode
  cases IndexMap.find k (ofInserts rs).aqs_indices <;> rfl

end ofInsertsLemmas

end FireColumnModel

/-! ## Column store: equal lengths and index exactness -/

section storeClaims

open FireColumnModel

variable {F : Type} [Zero F] [LT F] [DecidableRel (LT.lt : F → F → Prop)]

/-- C1. Equal-length invariant: after the sequence of `insertMeasurement` calls `rs` on a
freshly constructed `FireColumnModel`, each of the thirteen attribute columns has length exactly
`rs.length`, and `measurementCount()` returns `rs.length`. -/
theorem equal_length_invariant (rs : List (FireMeasurement F)) :
    (ofInserts rs).latitudes.length = rs.length ∧
    (ofInserts rs).longitudes.length = rs.length ∧
    (ofInserts rs).datetimes.length = rs.length ∧
    (ofInserts rs).parameters.length = rs.length ∧
    (ofInserts rs).concentrations.length = rs.length ∧
    (ofInserts rs).units.length = rs.length ∧
    (ofInserts rs).rawConcentrations.length = rs.length ∧
    (ofInserts rs).aqis.length = rs.length ∧
    (ofInserts rs).categories.length = rs.length ∧
    (ofInserts rs).siteNames.length = rs.length ∧
    (ofInserts rs).agencyNames.length = rs.length ∧
    (ofInserts rs).aqsCodes.length = rs.length ∧
    (ofInserts rs).fullAqsCodes.length = rs.length ∧
    (ofInserts rs).measurementCount = rs.length := by
  simp [measurementCount, ofInserts_latitudes, ofInserts_longitudes, ofInserts_datetimes,
    ofInserts_parameters, ofInserts_concentrations, ofInserts_units,
    ofInserts_rawConcentrations, ofInserts_aqis, ofInserts_categories, ofInserts_siteNames,
    ofInserts_agencyNames, ofInserts_aqsCodes, ofInserts_fullAqsCodes]

/-- C2. Index exactness: in the store built by the inserts `rs`, the site, parameter and
station-code columns hold the keys of the inserted records; for every key `k` each lookup
returns exactly the row positions `i < rs.length` whose column entry is `k`, in strictly
increasing order (hence without duplicates); and the row position of every inserted record is
in the three index lists under that record's own keys. -/
theorem index_exactness (rs : List (FireMeasurement F)) (k : String) :
    ((ofInserts rs).siteNames = rs.map (fun r => r.site_name) ∧
      (ofInserts rs).parameters = rs.map (fun r => r.parameter) ∧
      (ofInserts rs).aqsCodes = rs.map (fun r => r.aqs_code)) ∧
    (getIndicesBySite (ofInserts rs) k =
        (List.range rs.length).filter
          (fun i => decide ((ofInserts rs).siteNames[i]? = some k)) ∧
      getIndicesByParameter (ofInserts rs) k =
        (List.range rs.length).filter
          (fun i => decide ((ofInserts rs).parameters[i]? = some k)) ∧
      getIndicesByAqsCode (ofInserts rs) k =
        (List.range rs.length).filter
          (fun i => decide ((ofInserts rs).aqsCodes[i]? = some k))) ∧
    ((getIndicesBySite (ofInserts rs) k).Pairwise (fun a b => a < b) ∧
      (getIndicesByParameter (ofInserts rs) k).Pairwise (fun a b => a < b) ∧
      (getIndicesByAqsCode (ofInserts rs) k).Pairwise (fun a b => a < b)) ∧
    (∀ i : Fin rs.length,
      i.val ∈ getIndicesBySite (ofInserts rs) (rs.get i).site_name ∧
      i.val ∈ getIndicesByParameter (ofInserts rs) (rs.get i).parameter ∧
      i.val ∈ getIndicesByAqsCode (ofInserts rs) (rs.get i).aqs_code) := by
  refine ⟨⟨ofInserts_siteNames rs, ofInserts_parameters rs, ofInserts_aqsCodes rs⟩,
    ⟨?_, ?_, ?_⟩, ⟨?_, ?_, ?_⟩, fun i => ⟨?_, ?_, ?_⟩⟩
  · rw [getIndicesBySite_ofInserts, positionsOf, ofInserts_siteNames, List.length_map]
  · rw [getIndicesByParameter_ofInserts, positionsOf, ofInserts_parameters, List.length_map]
  · rw [getIndicesByAqsCode_ofInserts, positionsOf, ofInserts_aqsCodes, List.length_map]
  · rw [getIndicesBySite_ofInserts]; exact positionsOf_pairwise _ _
  · rw [getIndicesByParameter_ofInserts]; exact positionsOf_pairwise _ _
  · rw [getIndicesByAqsCode_ofInserts]; exact positionsOf_pairwise _ _
  · rw [getIndicesBySite_ofInserts, ofInserts_siteNames, positionsOf]
    simp [List.mem_filter, List.getElem?_map, List.getElem?_eq_getElem i.isLt]
  · rw [getIndicesByParameter_ofInserts, ofInserts_parameters, positionsOf]
    simp [List.mem_filter, List.getElem?_map, List.getElem?_eq_getElem i.isLt]
  · rw [getIndicesByAqsCode_ofInserts, ofInserts_aqsCodes, positionsOf]
    simp [List.mem_filter, List.getElem?_map, List.getElem?_eq_getElem i.isLt]

end storeClaims

/-! ## Worker filter logic -/

/-- A loop that pushes back the positions passing a test computes a filter. -/
theorem foldl_push_eq_filter (p : Nat → Bool) (l acc : List Nat) :
    l.foldl (fun matching_indices i => if p i then matching_indices ++ [i] else matching_indices)
        acc = acc ++ l.filter p := by
  induction l generalizing acc with
  | nil => simp
  | cons i l ih =>
    rw [List.foldl_cons, ih]
    by_cases h : p i <;> simp [h]

namespace FireQueryServiceImpl

/-- The AQI loop selects the positions of the AQI column that pass both bounds. -/
theorem aqiRangeScan_eq_filter (all_aqis : List Int) (min_aqi max_aqi : Int) :
    aqiRangeScan all_aqis min_aqi max_aqi =
      (List.range all_aqis.length).filter
        (fun i => decide ((min_aqi ≤ 0 ∨ min_aqi ≤ all_aqis.getD i 0) ∧
          (max_aqi ≤ 0 ∨ all_aqis.getD i 0 ≤ max_aqi))) := by
  unfold aqiRangeScan
  rw [← List.nil_append (List.filter _ _), ← foldl_push_eq_filter]
  congr 1
  funext acc i
  simp only [decide_eq_true_eq]
  generalize all_aqis.getD i 0 = aqi
  split_ifs <;> first | rfl | (exfalso; omega) | (exfalso; simp_all)

end FireQueryServiceImpl

section filterClaims

open FireColumnModel FireQueryServiceImpl

variable {F : Type}

/-- C3. Filter priority, step 1: when the request carries a filter whose parameter list is
non-empty, the row positions selected by the worker are `getIndicesByParameter` of the first
element of that list, whatever the other parameters, the site list and the AQI bounds are. -/
theorem filter_priority_parameter (s : FireQueryServiceImpl F) (request : InternalQueryRequest)
    (filter : QueryFilter) (p : String) (ps : List String)
    (hf : request.filter = some filter) (hp : filter.parameters = p :: ps) :
    matchingIndices s request = s.data_model_.getIndicesByParameter p := by
  simp [matchingIndices, hf, hp]

/-- C3, the scenario of the specification: rows 0 and 1 have parameter "PM2.5" at "SiteB",
row 2 has "PM10" at "SiteA"; the filter with parameters ["PM2.5"] and sites ["SiteA"] selects
exactly the rows 0 and 1. -/
theorem filter_priority_parameter_witness :
    (leaderRequest (some ⟨["PM2.5"], ["SiteA"], 0, 0⟩)).filter
        = some ⟨["PM2.5"], ["SiteA"], 0, 0⟩ ∧
    matchingIndices priorityWorker (leaderRequest (some ⟨["PM2.5"], ["SiteA"], 0, 0⟩))
        = priorityWorker.data_model_.getIndicesByParameter "PM2.5" ∧
    priorityWorker.data_model_.getIndicesByParameter "PM2.5" = [0, 1] ∧
    priorityWorker.data_model_.getIndicesBySite "SiteA" = [2] :=
  ⟨rfl,
    filter_priority_parameter priorityWorker (leaderRequest (some ⟨["PM2.5"], ["SiteA"], 0, 0⟩))
      ⟨["PM2.5"], ["SiteA"], 0, 0⟩ "PM2.5" [] rfl rfl,
    by decide, by decide⟩

/-- C4, evaluated on the code: a request whose filter is present with an empty parameter list,
an empty site list and both AQI bounds 0 makes the worker select no row at all, although its
store holds three rows; the same request without a filter selects the rows 0, 1, 2. -/
theorem empty_filter_selects_no_row :
    priorityWorker.data_model_.measurementCount = 3 ∧
    matchingIndices priorityWorker (leaderRequest (some ⟨[], [], 0, 0⟩)) = [] ∧
    (InternalQuery priorityWorker (leaderRequest (some ⟨[], [], 0, 0⟩))).map
        (fun response => response.measurements) = some [] ∧
    matchingIndices priorityWorker (leaderRequest none) = [0, 1, 2] := by
  decide

/-- C5. Filter priority, step 3: when the filter has empty parameter and site lists and
`min_aqi > 0` or `max_aqi > 0`, the worker selects exactly the row positions `i` of the AQI
column, in increasing order, with (`min_aqi <= 0` or `aqis[i] >= min_aqi`) and (`max_aqi <= 0`
or `aqis[i] <= max_aqi`). -/
theorem filter_priority_aqi (s : FireQueryServiceImpl F) (request : InternalQueryRequest)
    (filter : QueryFilter) (hf : request.filter = some filter)
    (hp : filter.parameters = []) (hs : filter.site_names = [])
    (hb : filter.min_aqi > 0 ∨ filter.max_aqi > 0) :
    matchingIndices s request =
        (List.range s.data_model_.aqis.length).filter
          (fun i => decide ((filter.min_aqi ≤ 0 ∨ filter.min_aqi ≤ s.data_model_.aqis.getD i 0) ∧
            (filter.max_aqi ≤ 0 ∨ s.data_model_.aqis.getD i 0 ≤ filter.max_aqi))) ∧
    (matchingIndices s request).Pairwise (fun a b => a < b) ∧
    ∀ i, i ∈ matchingIndices s request ↔
      ∃ aqi, s.data_model_.aqis[i]? = some aqi ∧
        (filter.min_aqi ≤ 0 ∨ filter.min_aqi ≤ aqi) ∧ (filter.max_aqi ≤ 0 ∨ aqi ≤ filter.max_aqi) := by
  have h : matchingIndices s request =
      (List.range s.data_model_.aqis.length).filter
        (fun i => decide ((filter.min_aqi ≤ 0 ∨ filter.min_aqi ≤ s.data_model_.aqis.getD i 0) ∧
          (filter.max_aqi ≤ 0 ∨ s.data_model_.aqis.getD i 0 ≤ filter.max_aqi))) := by
    simp only [matchingIndices, hf, hp, hs, List.length_nil, gt_iff_lt, lt_irrefl, if_false]
    rw [if_pos hb, aqiRangeScan_eq_filter]
  refine ⟨h, ?_, fun i => ?_⟩
  · rw [h]; exact List.Pairwise.filter _ (List.pairwise_lt_range _)
  · rw [h, List.mem_filter, List.mem_range]
    constructor
    · rintro ⟨hi, hd⟩
      refine ⟨s.data_model_.aqis[i], List.getElem?_eq_getElem hi, ?_⟩
      have := of_decide_eq_true hd
      rwa [List.getD_eq_getElem _ _ hi] at this
    · rintro ⟨aqi, ha, hc⟩
      obtain ⟨hi, he⟩ := List.getElem?_eq_some.mp ha
      refine ⟨hi, decide_eq_true ?_⟩
      rw [List.getD_eq_getElem _ _ hi, he]
      exact hc

/-- C5 on the three-row example store: the bounds `min_aqi = 0`, `max_aqi = 50` select the
rows with AQI 50 and 19, the bounds `min_aqi = 50`, `max_aqi = 0` the rows with AQI 50 and
112. -/
theorem filter_priority_aqi_witness :
    (matchingIndices priorityWorker (leaderRequest (some ⟨[], [], 0, 50⟩)) = [0, 2] ∧
      matchingIndices priorityWorker (leaderRequest (some ⟨[], [], 50, 0⟩)) = [0, 1]) ∧
    (∀ i, i ∈ matchingIndices priorityWorker (leaderRequest (some ⟨[], [], 0, 50⟩)) ↔
      ∃ aqi, priorityWorker.data_model_.aqis[i]? = some aqi ∧
        ((0 : Int) ≤ 0 ∨ 0 ≤ aqi) ∧ ((50 : Int) ≤ 0 ∨ aqi ≤ 50)) :=
  ⟨by decide,
    (filter_priority_aqi priorityWorker (leaderRequest (some ⟨[], [], 0, 50⟩))
      ⟨[], [], 0, 50⟩ rfl rfl rfl (Or.inr (by decide))).2.2⟩

/-- C6. Filter priority, step 2: when the filter has an empty parameter list and a non-empty
site list, the row positions selected by the worker are `getIndicesBySite` of the first
element of the site list, whatever the other site names and the AQI bounds are. -/
theorem filter_priority_site (s : FireQueryServiceImpl F) (request : InternalQueryRequest)
    (filter : QueryFilter) (site : String) (sites : List String)
    (hf : request.filter = some filter) (hp : filter.parameters = [])
    (hs : filter.site_names = site :: sites) :
    matchingIndices s request = s.data_model_.getIndicesBySite site := by
  simp [matchingIndices, hf, hp, hs]

/-- C6 on the three-row example store: sites ["SiteA", "SiteB"] with AQI bounds 100 and 200
select the rows of "SiteA" only, which is row 2 (whose AQI is 19). -/
theorem filter_priority_site_witness :
    matchingIndices priorityWorker (leaderRequest (some ⟨[], ["SiteA", "SiteB"], 100, 200⟩))
        = priorityWorker.data_model_.getIndicesBySite "SiteA" ∧
    priorityWorker.data_model_.getIndicesBySite "SiteA" = [2] :=
  ⟨filter_priority_site priorityWorker
      (leaderRequest (some ⟨[], ["SiteA", "SiteB"], 100, 200⟩))
      ⟨[], ["SiteA", "SiteB"], 100, 200⟩ "SiteA" ["SiteB"] rfl rfl rfl,
    by decide⟩

end filterClaims

/-! ## Unknown keys and materialization -/

section lookupClaims

open FireColumnModel FireQueryServiceImpl

variable {F : Type} [Zero F] [LT F] [DecidableRel (LT.lt : F → F → Prop)]

/-- C7. Unknown keys: in the store built by the inserts `rs`, a site name (parameter, station
code) that is the site name (parameter, station code) of no inserted record is looked up to
the empty sequence, which is not the full dataset as soon as one record was inserted. The
three lookups are `const` methods: they are functions of the store and return nothing else,
so the store is the same after the call. -/
theorem unknown_keys_empty (rs : List (FireMeasurement F)) (site parameter aqsCode : String)
    (hs : ∀ r ∈ rs, r.site_name ≠ site) (hp : ∀ r ∈ rs, r.parameter ≠ parameter)
    (ha : ∀ r ∈ rs, r.aqs_code ≠ aqsCode) :
    (getIndicesBySite (ofInserts rs) site = [] ∧
      getIndicesByParameter (ofInserts rs) parameter = [] ∧
      getIndicesByAqsCode (ofInserts rs) aqsCode = []) ∧
    (rs ≠ [] →
      getIndicesBySite (ofInserts rs) site ≠ List.range (ofInserts rs).measurementCount ∧
      getIndicesByParameter (ofInserts rs) parameter
        ≠ List.range (ofInserts rs).measurementCount ∧
      getIndicesByAqsCode (ofInserts rs) aqsCode
        ≠ List.range (ofInserts rs).measurementCount) := by
  have h1 : getIndicesBySite (ofInserts rs) site = [] := by
    rw [getIndicesBySite_ofInserts, ofInserts_siteNames]
    apply positionsOf_eq_nil
    intro hmem
    obtain ⟨r, hr, he⟩ := List.mem_map.mp hmem
    exact hs r hr he
  have h2 : getIndicesByParameter (ofInserts rs) parameter = [] := by
    rw [getIndicesByParameter_ofInserts, ofInserts_parameters]
    apply positionsOf_eq_nil
    intro hmem
    obtain ⟨r, hr, he⟩ := List.mem_map.mp hmem
    exact hp r hr he
  have h3 : getIndicesByAqsCode (ofInserts rs) aqsCode = [] := by
    rw [getIndicesByAqsCode_ofInserts, ofInserts_aqsCodes]
    apply positionsOf_eq_nil
    intro hmem
    obtain ⟨r, hr, he⟩ := List.mem_map.mp hmem
    exact ha r hr he
  refine ⟨⟨h1, h2, h3⟩, fun hne => ?_⟩
  have hcount : (ofInserts rs).measurementCount = rs.length := by
    simp [measurementCount, ofInserts_latitudes]
  have hrange : ([] : List Nat) ≠ List.range (ofInserts rs).measurementCount := by
    rw [hcount]
    intro he
    have hl := congrArg List.length he
    rw [List.length_range, List.length_nil] at hl
    exact hne (List.length_eq_zero.mp hl.symm)
  rw [h1, h2, h3]
  exact ⟨hrange, hrange, hrange⟩

/-- C7 on the three-row example store: the site "SiteC", the parameter "OZONE" and the station
code "000000000" were never inserted; each lookup is empty and differs from the rows 0, 1, 2. -/
theorem unknown_keys_empty_witness :
    (getIndicesBySite (ofInserts priorityRows) "SiteC" = [] ∧
      getIndicesByParameter (ofInserts priorityRows) "OZONE" = [] ∧
      getIndicesByAqsCode (ofInserts priorityRows) "000000000" = []) ∧
    (getIndicesBySite (ofInserts priorityRows) "SiteC"
        ≠ List.range (ofInserts priorityRows).measurementCount ∧
      getIndicesByParameter (ofInserts priorityRows) "OZONE"
        ≠ List.range (ofInserts priorityRows).measurementCount ∧
      getIndicesByAqsCode (ofInserts priorityRows) "000000000"
        ≠ List.range (ofInserts priorityRows).measurementCount) :=
  have h := unknown_keys_empty priorityRows "SiteC" "OZONE" "000000000"
    (by decide) (by decide) (by decide)
  ⟨h.1, h.2 (by decide)⟩

/-- The thirteen column reads at position `p` of a store built by inserts return the record
inserted as row `p`. -/
theorem measurementAt_ofInserts (rs : List (FireMeasurement F)) (p : Nat) :
    measurementAt (ofInserts rs) p = rs[p]? := by
  unfold measurementAt
  simp only [ofInserts_latitudes, ofInserts_longitudes, ofInserts_datetimes,
    ofInserts_parameters, ofInserts_concentrations, ofInserts_units,
    ofInserts_rawConcentrations, ofInserts_aqis, ofInserts_categories, ofInserts_siteNames,
    ofInserts_agencyNames, ofInserts_aqsCodes, ofInserts_fullAqsCodes, List.getElem?_map]
  cases rs[p]? <;> rfl

/-- The response loop started with `acc` appends the records at the given positions. -/
theorem materialize_loop (rs : List (FireMeasurement F)) (ps : List Nat)
    (h : ∀ p ∈ ps, p < rs.length) (acc : List (FireMeasurement F)) :
    ∃ ms, ps.foldl
        (fun measurements idx =>
          match measurements, measurementAt (ofInserts rs) idx with
          | some ms, some r => some (ms ++ [r])
          | _, _ => none)
        (some acc) = some (acc ++ ms) ∧
      ms.map some = ps.map (fun p => rs[p]?) := by
  induction ps generalizing acc with
  | nil => exact ⟨[], by simp, rfl⟩
  | cons p ps ih =>
    have hp : p < rs.length := h p (List.mem_cons_self _ _)
    obtain ⟨ms, hms, hmap⟩ :=
      ih (fun q hq => h q (List.mem_cons_of_mem _ hq)) (acc ++ [rs[p]])
    refine ⟨rs[p] :: ms, ?_, ?_⟩
    · rw [List.foldl_cons, measurementAt_ofInserts, List.getElem?_eq_getElem hp]
      simp only []
      rw [hms, List.append_assoc, List.singleton_append]
    · rw [List.map_cons, List.map_cons, hmap, List.getElem?_eq_getElem hp]

/-- C8. Materialization: for every list `ps` of row positions below the number of inserted
records, the response loop of the worker produces exactly `ps.length` records, in the order of
`ps`, the `j`-th being the record (all thirteen fields) inserted as row `ps[j]`; and these are
the measurements of the response of `InternalQuery` whenever `ps` is the list of positions it
selected. -/
theorem materialization_exact (rs : List (FireMeasurement F)) (ps : List Nat)
    (h : ∀ p ∈ ps, p < rs.length) :
    ∃ ms, materialize (ofInserts rs) ps = some ms ∧
      ms.length = ps.length ∧
      ms.map some = ps.map (fun p => rs[p]?) ∧
      ∀ (s : FireQueryServiceImpl F) (request : InternalQueryRequest),
        s.data_model_ = ofInserts rs → matchingIndices s request = ps →
        (InternalQuery s request).map (fun response => response.measurements) = some ms := by
  obtain ⟨ms, hms, hmap⟩ := materialize_loop rs ps h []
  rw [List.nil_append] at hms
  refine ⟨ms, hms, ?_, hmap, ?_⟩
  · have := congrArg List.length hmap
    simpa using this
  · intro s request hd hsel
    unfold InternalQuery
    rw [hd, hsel]
    unfold materialize
    rw [hms]
    rfl

/-- C8 on the three-row example store: the positions 2, 0, 0 yield three records, the third
inserted record (AQI 19) followed by the first one (AQI 50) twice. -/
theorem materialization_exact_witness :
    (materialize (ofInserts priorityRows) [2, 0, 0]).map (fun ms => ms.map (fun r => r.aqi))
        = some [19, 50, 50] ∧
    ∃ ms, materialize (ofInserts priorityRows) [2, 0, 0] = some ms ∧
      ms.length = 3 ∧
      ms.map some = [priorityRows[2]?, priorityRows[0]?, priorityRows[0]?] ∧
      ∀ (s : FireQueryServiceImpl Int) (request : InternalQueryRequest),
        s.data_model_ = ofInserts priorityRows → matchingIndices s request = [2, 0, 0] →
        (InternalQuery s request).map (fun response => response.measurements) = some ms :=
  ⟨by decide, materialization_exact priorityRows [2, 0, 0] (by decide)⟩

end lookupClaims

/-! ## Geographic bounds -/

namespace FireColumnModel

section boundsLemmas

variable {F : Type} [LT F] [DecidableRel (LT.lt : F → F → Prop)]

theorem insert_bounds_initialized (m : FireColumnModel F) (r : FireMeasurement F) :
    (insert m r).bounds_initialized = true := by
  unfold insert insertMeasurement updateDatetimeRange updateGeographicBounds updateIndices
  simp only []
  split_ifs <;> first | rfl | simp_all

theorem insert_bounds_first (m : FireColumnModel F) (r : FireMeasurement F)
    (h : m.bounds_initialized = false) :
    (insert m r).min_latitude = r.latitude ∧ (insert m r).max_latitude = r.latitude ∧
    (insert m r).min_longitude = r.longitude ∧ (insert m r).max_longitude = r.longitude := by
  unfold insert insertMeasurement updateDatetimeRange updateGeographicBounds updateIndices
  simp only []
  split_ifs <;> simp_all

theorem insert_bounds_next (m : FireColumnModel F) (r : FireMeasurement F)
    (h : m.bounds_initialized = true) :
    (insert m r).min_latitude = stdMin m.min_latitude r.latitude ∧
    (insert m r).max_latitude = stdMax m.max_latitude r.latitude ∧
    (insert m r).min_longitude = stdMin m.min_longitude r.longitude ∧
    (insert m r).max_longitude = stdMax m.max_longitude r.longitude := by
  unfold insert insertMeasurement updateDatetimeRange updateGeographicBounds updateIndices
  simp only []
  split_ifs <;> simp_all

end boundsLemmas

end FireColumnModel

section boundsOrder

variable {F : Type} [LinearOrder F]

theorem stdMin_eq_min (a b : F) : stdMin a b = min a b := by
  unfold stdMin
  split_ifs with h
  · exact (min_eq_right (le_of_lt h)).symm
  · exact (min_eq_left (not_lt.mp h)).symm

theorem stdMax_eq_max (a b : F) : stdMax a b = max a b := by
  unfold stdMax
  split_ifs with h
  · exact (max_eq_right (le_of_lt h)).symm
  · exact (max_eq_left (not_lt.mp h)).symm

theorem stdMin_least_snoc (l : List F) (a b : F) (h : a ∈ l ∧ ∀ x ∈ l, a ≤ x) :
    stdMin a b ∈ l ++ [b] ∧ ∀ x ∈ l ++ [b], stdMin a b ≤ x := by
  rw [stdMin_eq_min]
  constructor
  · rcases min_choice a b with e | e <;> rw [e] <;> simp [h.1]
  · intro x hx
    rcases List.mem_append.mp hx with hx | hx
    · exact le_trans (min_le_left a b) (h.2 x hx)
    · rw [List.mem_singleton.mp hx]; exact min_le_right a b

theorem stdMax_greatest_snoc (l : List F) (a b : F) (h : a ∈ l ∧ ∀ x ∈ l, x ≤ a) :
    stdMax a b ∈ l ++ [b] ∧ ∀ x ∈ l ++ [b], x ≤ stdMax a b := by
  rw [stdMax_eq_max]
  constructor
  · rcases max_choice a b with e | e <;> rw [e] <;> simp [h.1]
  · intro x hx
    rcases List.mem_append.mp hx with hx | hx
    · exact le_trans (h.2 x hx) (le_max_left a b)
    · rw [List.mem_singleton.mp hx]; exact le_max_right a b

end boundsOrder

section boundsClaims

open FireColumnModel

/-- The running bounds after at least one insert: the flag is set and the four stored values
are the least and greatest inserted coordinates. -/
theorem ofInserts_bounds {F : Type} [LinearOrder F] [Zero F] (rs : List (FireMeasurement F))
    (r : FireMeasurement F) :
    (ofInserts (rs ++ [r])).bounds_initialized = true ∧
    ((ofInserts (rs ++ [r])).min_latitude ∈ (rs ++ [r]).map (fun x => x.latitude) ∧
      ∀ x ∈ (rs ++ [r]).map (fun x => x.latitude), (ofInserts (rs ++ [r])).min_latitude ≤ x) ∧
    ((ofInserts (rs ++ [r])).max_latitude ∈ (rs ++ [r]).map (fun x => x.latitude) ∧
      ∀ x ∈ (rs ++ [r]).map (fun x => x.latitude), x ≤ (ofInserts (rs ++ [r])).max_latitude) ∧
    ((ofInserts (rs ++ [r])).min_longitude ∈ (rs ++ [r]).map (fun x => x.longitude) ∧
      ∀ x ∈ (rs ++ [r]).map (fun x => x.longitude), (ofInserts (rs ++ [r])).min_longitude ≤ x) ∧
    ((ofInserts (rs ++ [r])).max_longitude ∈ (rs ++ [r]).map (fun x => x.longitude) ∧
      ∀ x ∈ (rs ++ [r]).map (fun x => x.longitude),
        x ≤ (ofInserts (rs ++ [r])).max_longitude) := by
  induction rs using List.reverseRecOn generalizing r with
  | nil =>
    have hb := insert_bounds_first (new : FireColumnModel F) r rfl
    rw [List.nil_append, ← List.nil_append [r], ofInserts_snoc, ofInserts_nil]
    refine ⟨insert_bounds_initialized _ _, ?_, ?_, ?_, ?_⟩ <;>
      simp [hb.1, hb.2.1, hb.2.2.1, hb.2.2.2]
  | append_singleton rs r0 ih =>
    obtain ⟨hi, h1, h2, h3, h4⟩ := ih r0
    have hb := insert_bounds_next (ofInserts (rs ++ [r0])) r hi
    rw [ofInserts_snoc]
    refine ⟨insert_bounds_initialized _ _, ?_, ?_, ?_, ?_⟩
    · rw [hb.1, List.map_append, List.map_singleton]
      exact stdMin_least_snoc _ _ _ h1
    · rw [hb.2.1, List.map_append, List.map_singleton]
      exact stdMax_greatest_snoc _ _ _ h2
    · rw [hb.2.2.1, List.map_append, List.map_singleton]
      exact stdMin_least_snoc _ _ _ h3
    · rw [hb.2.2.2, List.map_append, List.map_singleton]
      exact stdMax_greatest_snoc _ _ _ h4

/-- C9. Geographic bounds: over a totally ordered coordinate type, after a non-empty sequence
of inserts `getGeographicBounds` returns as `min_lat` the minimum and as `max_lat` the maximum
of the inserted latitudes (an inserted value that is below, resp. above, all of them), and as
`min_lon`, `max_lon` the minimum and maximum of the inserted longitudes. -/
theorem geographic_bounds_exact {F : Type} [LinearOrder F] [Zero F]
    (rs : List (FireMeasurement F)) (h : rs ≠ []) :
    ((getGeographicBounds (ofInserts rs)).min_lat ∈ rs.map (fun r => r.latitude) ∧
      ∀ r ∈ rs, (getGeographicBounds (ofInserts rs)).min_lat ≤ r.latitude) ∧
    ((getGeographicBounds (ofInserts rs)).max_lat ∈ rs.map (fun r => r.latitude) ∧
      ∀ r ∈ rs, r.latitude ≤ (getGeographicBounds (ofInserts rs)).max_lat) ∧
    ((getGeographicBounds (ofInserts rs)).min_lon ∈ rs.map (fun r => r.longitude) ∧
      ∀ r ∈ rs, (getGeographicBounds (ofInserts rs)).min_lon ≤ r.longitude) ∧
    ((getGeographicBounds (ofInserts rs)).max_lon ∈ rs.map (fun r => r.longitude) ∧
      ∀ r ∈ rs, r.longitude ≤ (getGeographicBounds (ofInserts rs)).max_lon) := by
  obtain ⟨rs0, r0, rfl⟩ : ∃ rs0 r0, rs = rs0 ++ [r0] := by
    induction rs using List.reverseRecOn with
    | nil => exact absurd rfl h
    | append_singleton rs0 r0 _ => exact ⟨rs0, r0, rfl⟩
  obtain ⟨hi, h1, h2, h3, h4⟩ := ofInserts_bounds rs0 r0
  have hg : getGeographicBounds (ofInserts (rs0 ++ [r0])) =
      { min_lat := (ofInserts (rs0 ++ [r0])).min_latitude
        max_lat := (ofInserts (rs0 ++ [r0])).max_latitude
        min_lon := (ofInserts (rs0 ++ [r0])).min_longitude
        max_lon := (ofInserts (rs0 ++ [r0])).max_longitude } := by
    unfold getGeographicBounds
    rw [if_pos hi]
  rw [hg]
  exact ⟨⟨h1.1, fun r hr => h1.2 _ (List.mem_map_of_mem _ hr)⟩,
    ⟨h2.1, fun r hr => h2.2 _ (List.mem_map_of_mem _ hr)⟩,
    ⟨h3.1, fun r hr => h3.2 _ (List.mem_map_of_mem _ hr)⟩,
    ⟨h4.1, fun r hr => h4.2 _ (List.mem_map_of_mem _ hr)⟩⟩

/-- C9, the scenario of the specification: inserting (lat 10, lon 20) then (lat -5, lon 30)
yields min_lat = -5, max_lat = 10, min_lon = 20, max_lon = 30. -/
theorem geographic_bounds_exact_witness :
    getGeographicBounds (ofInserts [recordAt 10 20, recordAt (-5) 30])
        = { min_lat := -5, max_lat := 10, min_lon := 20, max_lon := 30 } ∧
    ((getGeographicBounds (ofInserts [recordAt 10 20, recordAt (-5) 30])).min_lat
        ∈ [recordAt 10 20, recordAt (-5) 30].map (fun r => r.latitude) ∧
      ∀ r ∈ [recordAt 10 20, recordAt (-5) 30],
        (getGeographicBounds (ofInserts [recordAt 10 20, recordAt (-5) 30])).min_lat
          ≤ r.latitude) :=
  ⟨by decide,
    (geographic_bounds_exact [recordAt 10 20, recordAt (-5) 30] (by decide)).1⟩

/-- C10, evaluated on the code: `getGeographicBounds` returns the same four values on a store
with no inserts and on a store whose only record is at latitude 0, longitude 0, so the claimed
difference does not hold. -/
theorem undefined_bounds_not_distinct :
    ¬ (getGeographicBounds (ofInserts ([] : List (FireMeasurement Int)))
        ≠ getGeographicBounds (ofInserts [recordAt 0 0])) := by
  decide

/-- C10 as amended: before the first insert the flag `_bounds_initialized` is false and after
an insert it is true, which is the only place where the undefined bound differs from a real
one; `getGeographicBounds` returns 0 for all four values both on a freshly constructed store and
on a store whose only record is at latitude 0, longitude 0. -/
theorem undefined_bounds_flag_only {F : Type} [Zero F] [LT F]
    [DecidableRel (LT.lt : F → F → Prop)] (datetime parameter : String) (concentration : F)
    (unit : String) (raw_concentration : F) (aqi category : Int)
    (site_name agency_name aqs_code full_aqs_code : String) :
    (new : FireColumnModel F).bounds_initialized = false ∧
    (insertMeasurement (new : FireColumnModel F) 0 0 datetime parameter concentration unit
      raw_concentration aqi category site_name agency_name aqs_code
      full_aqs_code).bounds_initialized = true ∧
    getGeographicBounds (new : FireColumnModel F)
      = { min_lat := 0, max_lat := 0, min_lon := 0, max_lon := 0 } ∧
    getGeographicBounds
        (insertMeasurement (new : FireColumnModel F) 0 0 datetime parameter concentration unit
          raw_concentration aqi category site_name agency_name aqs_code full_aqs_code)
      = { min_lat := 0, max_lat := 0, min_lon := 0, max_lon := 0 } := by
  have hi := insert_bounds_initialized (new : FireColumnModel F)
    ⟨0, 0, datetime, parameter, concentration, unit, raw_concentration, aqi, category,
      site_name, agency_name, aqs_code, full_aqs_code⟩
  have hb := insert_bounds_first (new : FireColumnModel F)
    ⟨0, 0, datetime, parameter, concentration, unit, raw_concentration, aqi, category,
      site_name, agency_name, aqs_code, full_aqs_code⟩ rfl
  simp only [FireColumnModel.insert] at hi hb
  refine ⟨rfl, hi, rfl, ?_⟩
  unfold getGeographicBounds
  rw [if_pos hi, hb.1, hb.2.1, hb.2.2.1, hb.2.2.2]

end boundsClaims

/-! ## Timestamp range -/

theorem string_not_lt_empty (d : String) : ¬ d < "" := by
  rw [String.lt_iff_toList_lt]
  intro h
  have he : ("" : String).toList = [] := rfl
  rw [he] at h
  generalize d.toList = cs at h
  cases h

namespace FireColumnModel

section datetimeLemmas

variable {F : Type} [LT F] [DecidableRel (LT.lt : F → F → Prop)]

theorem insert_datetime_range (m : FireColumnModel F) (r : FireMeasurement F) (e l : String)
    (h : m.datetime_range = [e, l]) :
    (insert m r).datetime_range =
      [if e.isEmpty ∨ stringLess r.datetime e then r.datetime else e,
       if l.isEmpty ∨ stringLess l r.datetime then r.datetime else l] := by
  unfold insert insertMeasurement updateDatetimeRange updateGeographicBounds updateIndices
  simp only []
  split_ifs <;> simp_all

end datetimeLemmas

section datetimeRangeLemmas

variable {F : Type} [Zero F] [LT F] [DecidableRel (LT.lt : F → F → Prop)]

/-- The range after the inserts `rs` is a pair; its second entry is the greatest inserted
timestamp, and its first entry the least one when no inserted timestamp is empty. -/
theorem ofInserts_datetime_range (rs : List (FireMeasurement F)) :
    ∃ e l, (ofInserts rs).datetime_range = [e, l] ∧
      (rs = [] ∧ l = "" ∨
        (l ∈ rs.map (fun r => r.datetime) ∧ ∀ d ∈ rs.map (fun r => r.datetime), d ≤ l)) ∧
      ((∀ r ∈ rs, r.datetime ≠ "") →
        rs = [] ∧ e = "" ∨
        (e ∈ rs.map (fun r => r.datetime) ∧ ∀ d ∈ rs.map (fun r => r.datetime), e ≤ d)) := by
  induction rs using List.reverseRecOn with
  | nil => exact ⟨"", "", rfl, Or.inl ⟨rfl, rfl⟩, fun _ => Or.inl ⟨rfl, rfl⟩⟩
  | append_singleton rs r ih =>
    obtain ⟨e, l, hr, hl, he⟩ := ih
    have hce : (e.isEmpty = true ∨ stringLess r.datetime e = true) ↔
        (e = "" ∨ r.datetime < e) := by
      rw [String.isEmpty_iff, stringLess_iff]
    have hcl : (l.isEmpty = true ∨ stringLess l r.datetime = true) ↔
        (l = "" ∨ l < r.datetime) := by
      rw [String.isEmpty_iff, stringLess_iff]
    refine ⟨_, _, by rw [ofInserts_snoc]; exact insert_datetime_range _ r e l hr, Or.inr ?_,
      fun hne => Or.inr ?_⟩
    · rw [if_congr hcl rfl rfl, List.map_append, List.map_singleton]
      rcases hl with ⟨hnil, hl0⟩ | ⟨hmem, hmax⟩
      · subst hnil
        simp [hl0]
      · by_cases hc : l = "" ∨ l < r.datetime
        · rw [if_pos hc]
          refine ⟨by simp, fun d hd => ?_⟩
          rcases List.mem_append.mp hd with hd | hd
          · rcases hc with hc | hc
            · have h1 : d ≤ l := hmax d hd
              rw [hc] at h1
              exact le_trans h1 (not_lt.mp (string_not_lt_empty r.datetime))
            · exact le_of_lt (lt_of_le_of_lt (hmax d hd) hc)
          · rw [List.mem_singleton.mp hd]
        · rw [if_neg hc]
          refine ⟨List.mem_append_left _ hmem, fun d hd => ?_⟩
          rcases List.mem_append.mp hd with hd | hd
          · exact hmax d hd
          · rw [List.mem_singleton.mp hd]
            exact not_lt.mp (fun h => hc (Or.inr h))
    · rw [if_congr hce rfl rfl, List.map_append, List.map_singleton]
      have hne' : ∀ x ∈ rs, x.datetime ≠ "" := fun x hx => hne x (List.mem_append_left _ hx)
      rcases he hne' with ⟨hnil, he0⟩ | ⟨hmem, hmin⟩
      · subst hnil
        simp [he0]
      · by_cases hc : e = "" ∨ r.datetime < e
        · rw [if_pos hc]
          refine ⟨by simp, fun d hd => ?_⟩
          rcases List.mem_append.mp hd with hd | hd
          · rcases hc with hc | hc
            · exfalso
              obtain ⟨x, hx, hxe⟩ := List.mem_map.mp hmem
              exact hne' x hx (hxe.trans hc)
            · exact le_of_lt (lt_of_lt_of_le hc (hmin d hd))
          · rw [List.mem_singleton.mp hd]
        · rw [if_neg hc]
          refine ⟨List.mem_append_left _ hmem, fun d hd => ?_⟩
          rcases List.mem_append.mp hd with hd | hd
          · exact hmin d hd
          · rw [List.mem_singleton.mp hd]
            exact not_lt.mp (fun h => hc (Or.inr h))

/-- When no inserted timestamp is the empty string, `datetimeRange()[0]` after a non-empty
sequence of inserts is the least inserted timestamp. -/
theorem earliest_of_nonempty_timestamps (rs : List (FireMeasurement F)) (h : rs ≠ [])
    (hne : ∀ r ∈ rs, r.datetime ≠ "") :
    ∃ earliest, (ofInserts rs).datetimeRange[0]? = some earliest ∧
      earliest ∈ rs.map (fun r => r.datetime) ∧
      ∀ r ∈ rs, stringLess r.datetime earliest = false := by
  obtain ⟨e, l, hr, -, he⟩ := ofInserts_datetime_range rs
  rcases he hne with ⟨hnil, -⟩ | ⟨hmem, hmin⟩
  · exact absurd hnil h
  · refine ⟨e, by rw [datetimeRange, hr]; rfl, hmem, fun r hr' => ?_⟩
    have hle : e ≤ r.datetime := hmin _ (List.mem_map_of_mem _ hr')
    exact Bool.eq_false_iff.mpr (fun hlt => not_lt.mpr hle ((stringLess_iff _ _).mp hlt))

end datetimeRangeLemmas

end FireColumnModel

section datetimeClaims

open FireColumnModel

/-- C11, evaluated on the code: after inserting a record with the empty timestamp and then one
with the timestamp "2020-08-10T01:00", `datetimeRange()` is the pair of "2020-08-10T01:00"
twice, although the empty timestamp is the smaller of the two; after the timestamps
"2020", "", "2021" the first entry is "2021". -/
theorem earliest_timestamp_lost :
    (ofInserts [recordDated "", recordDated "2020-08-10T01:00"]).datetimeRange
        = ["2020-08-10T01:00", "2020-08-10T01:00"] ∧
    stringLess "" "2020-08-10T01:00" = true ∧
    (ofInserts [recordDated "2020", recordDated "", recordDated "2021"]).datetimeRange
        = ["2021", "2021"] := by
  decide

/-- C12. Latest timestamp: after a non-empty sequence of inserts, whose timestamps are
arbitrary strings, `datetimeRange()[1]` is an inserted timestamp that no inserted timestamp
exceeds in the lexicographic order. -/
theorem latest_timestamp {F : Type} [Zero F] [LT F] [DecidableRel (LT.lt : F → F → Prop)]
    (rs : List (FireMeasurement F)) (h : rs ≠ []) :
    ∃ latest, (ofInserts rs).datetimeRange[1]? = some latest ∧
      latest ∈ rs.map (fun r => r.datetime) ∧
      ∀ r ∈ rs, stringLess latest r.datetime = false ∧ r.datetime ≤ latest := by
  obtain ⟨e, l, hr, hl, -⟩ := ofInserts_datetime_range rs
  rcases hl with ⟨hnil, -⟩ | ⟨hmem, hmax⟩
  · exact absurd hnil h
  · refine ⟨l, by rw [datetimeRange, hr]; rfl, hmem, fun r hr' => ?_⟩
    have hle : r.datetime ≤ l := hmax _ (List.mem_map_of_mem _ hr')
    exact ⟨Bool.eq_false_iff.mpr (fun hlt => not_lt.mpr hle ((stringLess_iff _ _).mp hlt)), hle⟩

/-- C12 on three inserts with the timestamps "2020", "" and "2019": the second entry of the
range is "2020". -/
theorem latest_timestamp_witness :
    (ofInserts [recordDated "2020", recordDated "", recordDated "2019"]).datetimeRange
        = ["2019", "2020"] ∧
    ∃ latest,
      (ofInserts [recordDated "2020", recordDated "", recordDated "2019"]).datetimeRange[1]?
        = some latest ∧
      latest ∈ [recordDated "2020", recordDated "", recordDated "2019"].map
        (fun r => r.datetime) ∧
      ∀ r ∈ [recordDated "2020", recordDated "", recordDated "2019"],
        stringLess latest r.datetime = false ∧ r.datetime ≤ latest :=
  ⟨by decide,
    latest_timestamp [recordDated "2020", recordDated "", recordDated "2019"] (by decide)⟩

end datetimeClaims

/-! ## Loading rows -/

theorem wellFormedRow_eq_none {F : Type} (stod : String → Option F) (stoi : String → Option Int)
    (row : List String)
    (hbad : row.length < 13 ∨ stod (row.getD 0 "") = none ∨ stod (row.getD 1 "") = none ∨
      stod (row.getD 4 "") = none ∨ stod (row.getD 6 "") = none ∨
      stoi (row.getD 7 "") = none ∨ stoi (row.getD 8 "") = none) :
    wellFormedRow stod stoi row = none := by
  unfold wellFormedRow
  by_cases hlen : row.length < 13
  · simp [hlen]
  · rcases hbad with h | h | h | h | h | h | h
    · exact absurd h hlen
    all_goals
      simp only [hlen, if_false]
      split
      · simp_all
      · rfl

namespace FireColumnModel

section loadLemmas

variable {F : Type} [LT F] [DecidableRel (LT.lt : F → F → Prop)]

/-- After the header, the loop body inserts the record of a well-formed row and does nothing
on any other row. -/
theorem readFromCSVRow_data (stod : String → Option F) (stoi : String → Option Int)
    (m : FireColumnModel F) (row : List String) :
    readFromCSVRow stod stoi (m, true) row =
      (match wellFormedRow stod stoi row with
        | some r => insert m r
        | none => m, true) := by
  unfold readFromCSVRow wellFormedRow
  by_cases hlen : row.length < 13
  · simp [hlen]
  · simp only [Bool.not_true, Bool.false_eq_true, if_false, hlen]
    cases stod (row.getD 0 "") <;> cases stod (row.getD 1 "") <;>
      cases stod (row.getD 4 "") <;> cases stod (row.getD 6 "") <;>
      cases stoi (row.getD 7 "") <;> cases stoi (row.getD 8 "") <;> rfl

theorem readFromCSV_data_rows (stod : String → Option F) (stoi : String → Option Int)
    (m : FireColumnModel F) (rows : List (List String)) :
    rows.foldl (readFromCSVRow stod stoi) (m, true) =
      ((rows.filterMap (wellFormedRow stod stoi)).foldl insert m, true) := by
  induction rows generalizing m with
  | nil => rfl
  | cons row rows ih =>
    rw [List.foldl_cons, readFromCSVRow_data, ih]
    cases h : wellFormedRow stod stoi row <;> simp [List.filterMap_cons, h]

theorem readFromCSV_header (stod : String → Option F) (stoi : String → Option Int)
    (m : FireColumnModel F) (header : List String) (rows : List (List String)) :
    readFromCSV stod stoi m (header :: rows) =
      (rows.filterMap (wellFormedRow stod stoi)).foldl insert m := by
  unfold readFromCSV
  rw [List.foldl_cons]
  have h0 : readFromCSVRow stod stoi (m, false) header = (m, true) := by
    simp [readFromCSVRow]
  rw [h0, readFromCSV_data_rows]

end loadLemmas

end FireColumnModel

section loadClaims

open FireColumnModel

/-- C13. Malformed rows are skipped atomically: a data row with fewer than 13 fields or with a
latitude, longitude, concentration, raw concentration, AQI or category field that fails to
parse leaves the store (every column, index and aggregate) exactly as it was, the rows before
and after it are treated as if it were absent, and after the load the store is the result of
inserting, in order, exactly the well-formed rows that follow the header. -/
theorem malformed_rows_skipped {F : Type} [LT F] [DecidableRel (LT.lt : F → F → Prop)]
    (stod : String → Option F) (stoi : String → Option Int) (m : FireColumnModel F)
    (header : List String) (before after : List (List String)) (row : List String)
    (hbad : row.length < 13 ∨ stod (row.getD 0 "") = none ∨ stod (row.getD 1 "") = none ∨
      stod (row.getD 4 "") = none ∨ stod (row.getD 6 "") = none ∨
      stoi (row.getD 7 "") = none ∨ stoi (row.getD 8 "") = none) :
    readFromCSVRow stod stoi (m, true) row = (m, true) ∧
    readFromCSV stod stoi m (header :: (before ++ row :: after)) =
      readFromCSV stod stoi m (header :: (before ++ after)) ∧
    (∀ rows : List (List String), readFromCSV stod stoi m (header :: rows) =
      (rows.filterMap (wellFormedRow stod stoi)).foldl FireColumnModel.insert m) ∧
    readFromCSV stod stoi m [] = m := by
  have hnone := wellFormedRow_eq_none stod stoi row hbad
  refine ⟨?_, ?_, fun rows => readFromCSV_header stod stoi m header rows, rfl⟩
  · rw [readFromCSVRow_data, hnone]
  · rw [readFromCSV_header, readFromCSV_header, List.filterMap_append, List.filterMap_append,
      List.filterMap_cons, hnone]

/-- C13 on a source of a header and four rows, the second with 12 fields and the third with
the AQI field "n/a": the store after the load holds the first and the fourth row. -/
theorem malformed_rows_skipped_witness :
    (readFromCSV parseSmallInt parseSmallInt (new : FireColumnModel Int) sampleRows).datetimes
        = ["2020-08-10T01:00", "2020-08-10T04:00"] ∧
    readFromCSVRow parseSmallInt parseSmallInt ((new : FireColumnModel Int), true)
        (sampleRows.getD 3 []) = ((new : FireColumnModel Int), true) ∧
    readFromCSV parseSmallInt parseSmallInt (new : FireColumnModel Int)
        (sampleRows.getD 0 [] :: ([sampleRows.getD 1 [], sampleRows.getD 2 []]
          ++ sampleRows.getD 3 [] :: [sampleRows.getD 4 []])) =
      readFromCSV parseSmallInt parseSmallInt (new : FireColumnModel Int)
        (sampleRows.getD 0 [] :: ([sampleRows.getD 1 [], sampleRows.getD 2 []]
          ++ [sampleRows.getD 4 []])) :=
  have h := malformed_rows_skipped parseSmallInt parseSmallInt (new : FireColumnModel Int)
    (sampleRows.getD 0 []) [sampleRows.getD 1 [], sampleRows.getD 2 []]
    [sampleRows.getD 4 []] (sampleRows.getD 3 [])
    (Or.inr (Or.inr (Or.inr (Or.inr (Or.inr (Or.inl (by decide)))))))
  ⟨by decide, h.1, h.2.1⟩

end loadClaims

/-! ## Status, cancellation and the query stream of the workers -/

section lifecycleClaims

open FireQueryServiceImpl

/-- C14, evaluated on the code: on workers that never received a Query, `GetStatus` for the
request id 999 answers with the state "pending", so the claimed distinct result for an
unknown id does not exist. -/
theorem unknown_request_id_pending :
    ¬ ((GetStatus priorityWorker ⟨999, "status"⟩).1.status ≠ "pending") ∧
    ¬ ((ServerD.FireQueryServiceImpl.GetStatus workerD ⟨999, "status"⟩).1.status
        ≠ "pending") := by
  decide

/-- C14 as amended: on both workers `GetStatus` answers every request id, whether or not a
Query for it was received before, with the id echoed, the state "pending" and 0 of 0 chunks,
and leaves the service as it was; the workers keep no registry of requests. -/
theorem get_status_always_pending {F : Type} (s : FireQueryServiceImpl F)
    (d : ServerD.FireQueryServiceImpl) (request : StatusRequest) (earlier : QueryRequest) :
    (GetStatus s request =
        ({ request_id := request.request_id, status := "pending", chunks_delivered := 0,
           total_chunks := 0 }, s) ∧
      GetStatus (Query s earlier).2 request = GetStatus s request) ∧
    (ServerD.FireQueryServiceImpl.GetStatus d request =
        ({ request_id := request.request_id, status := "pending", chunks_delivered := 0,
           total_chunks := 0 }, d) ∧
      ServerD.FireQueryServiceImpl.GetStatus
          (ServerD.FireQueryServiceImpl.Query d earlier (F := F)).2 request =
        ServerD.FireQueryServiceImpl.GetStatus d request) :=
  ⟨⟨rfl, rfl⟩, ⟨rfl, rfl⟩⟩

/-- C15, evaluated on the code: after the Query call for the request id 12345 has written its
chunk, which is the last one and carries `total_chunks = 1`, `GetStatus` for 12345 reports
"pending" with 0 of 0 chunks, not a completed state with 1 of 1. -/
theorem completed_query_still_pending :
    (Query priorityWorker clientQuery).1.map
        (fun chunk => (chunk.is_last_chunk, chunk.total_chunks)) = [(true, 1)] ∧
    (GetStatus (Query priorityWorker clientQuery).2 ⟨12345, "status"⟩).1
        = { request_id := 12345, status := "pending", chunks_delivered := 0,
            total_chunks := 0 } ∧
    ¬ ((GetStatus (Query priorityWorker clientQuery).2 ⟨12345, "status"⟩).1.status
          ≠ "pending" ∧
        (GetStatus (Query priorityWorker clientQuery).2 ⟨12345, "status"⟩).1.chunks_delivered
          = 1 ∧
        (GetStatus (Query priorityWorker clientQuery).2 ⟨12345, "status"⟩).1.total_chunks
          = 1) := by
  decide

/-- C15 as amended: a Query call on the worker writes one chunk, which is the last one and
carries `total_chunks = 1`, and leaves the service as it was; a following `GetStatus` for the
same request id reports the state "pending" with `chunks_delivered = 0` and
`total_chunks = 0`. -/
theorem get_status_after_query {F : Type} (s : FireQueryServiceImpl F) (request : QueryRequest)
    (action : String) :
    (Query s request).1.map (fun chunk => (chunk.is_last_chunk, chunk.total_chunks))
        = [(true, 1)] ∧
    (Query s request).2 = s ∧
    (GetStatus (Query s request).2 ⟨request.request_id, action⟩).1
        = { request_id := request.request_id, status := "pending", chunks_delivered := 0,
            total_chunks := 0 } :=
  ⟨rfl, rfl, rfl⟩

/-- C16. Cancel is idempotent: on both workers two `CancelRequest` calls in a row for a
request id both return (with `Status::OK`) the same response, the request id echoed with the
state "cancelled", and the second call leaves the service as the first one left it. -/
theorem cancel_idempotent {F : Type} (s : FireQueryServiceImpl F)
    (d : ServerD.FireQueryServiceImpl) (request : StatusRequest) :
    ((CancelRequest (CancelRequest s request).2 request).1 = (CancelRequest s request).1 ∧
      (CancelRequest (CancelRequest s request).2 request).2 = (CancelRequest s request).2 ∧
      (CancelRequest s request).1.request_id = request.request_id ∧
      (CancelRequest s request).1.status = "cancelled") ∧
    ((ServerD.FireQueryServiceImpl.CancelRequest
          (ServerD.FireQueryServiceImpl.CancelRequest d request).2 request).1
        = (ServerD.FireQueryServiceImpl.CancelRequest d request).1 ∧
      (ServerD.FireQueryServiceImpl.CancelRequest
          (ServerD.FireQueryServiceImpl.CancelRequest d request).2 request).2
        = (ServerD.FireQueryServiceImpl.CancelRequest d request).2 ∧
      (ServerD.FireQueryServiceImpl.CancelRequest d request).1.request_id
        = request.request_id ∧
      (ServerD.FireQueryServiceImpl.CancelRequest d request).1.status = "cancelled") :=
  ⟨⟨rfl, rfl, rfl, rfl⟩, ⟨rfl, rfl, rfl, rfl⟩⟩

/-- The paging contract of a stream of chunks for the page size `S`, with `T` the number of
results: every chunk carries `total_results = T`, `total_chunks` the page count of `T` and `S`,
and the request id; the chunk numbers are 0, 1, ... in order; exactly one chunk is marked last
and it is the final one; the measurements of all chunks are `T` in number. -/
theorem paging_contract_single {F : Type} (request : QueryRequest)
    (chunks : List (QueryResponseChunk F))
    (h : chunks =
      [{ request_id := request.request_id, chunk_number := 0, is_last_chunk := true,
         total_chunks := 1, total_results := 0, measurements := [] }]) :
    ∃ T : Int,
      (∀ c ∈ chunks, c.total_results = T ∧
        c.total_chunks = specTotalChunks T request.max_results_per_chunk ∧
        c.request_id = request.request_id) ∧
      chunks.map (fun c => c.chunk_number) = (List.range chunks.length).map Int.ofNat ∧
      (chunks.filter (fun c => c.is_last_chunk)).length = 1 ∧
      chunks.getLast?.map (fun c => c.is_last_chunk) = some true ∧
      ((chunks.map (fun c => c.measurements.length)).sum : Int) = T := by
  subst h
  refine ⟨0, ?_, rfl, rfl, rfl, rfl⟩
  intro c hc
  rw [List.mem_singleton.mp hc]
  exact ⟨rfl, rfl, rfl⟩

/-- C17. Paging contract on the Query stream of the workers: for every request there is a
number `T` of results such that every chunk written carries `total_results = T`, the request
id and `total_chunks` equal to the ceiling of `T / S`, or to 1 when `T = 0`; the chunk numbers
start at 0 and go up by one; exactly one chunk has `is_last_chunk` set and it is the final
one; and the measurements of all chunks are `T` in number. -/
theorem query_paging_contract {F : Type} (s : FireQueryServiceImpl F)
    (d : ServerD.FireQueryServiceImpl) (request : QueryRequest) :
    (∃ T : Int,
      (∀ c ∈ (Query s request).1, c.total_results = T ∧
        c.total_chunks = specTotalChunks T request.max_results_per_chunk ∧
        c.request_id = request.request_id) ∧
      (Query s request).1.map (fun c => c.chunk_number)
        = (List.range (Query s request).1.length).map Int.ofNat ∧
      ((Query s request).1.filter (fun c => c.is_last_chunk)).length = 1 ∧
      (Query s request).1.getLast?.map (fun c => c.is_last_chunk) = some true ∧
      (((Query s request).1.map (fun c => c.measurements.length)).sum : Int) = T) ∧
    (∃ T : Int,
      (∀ c ∈ (ServerD.FireQueryServiceImpl.Query d request (F := F)).1, c.total_results = T ∧
        c.total_chunks = specTotalChunks T request.max_results_per_chunk ∧
        c.request_id = request.request_id) ∧
      (ServerD.FireQueryServiceImpl.Query d request (F := F)).1.map (fun c => c.chunk_number)
        = (List.range (ServerD.FireQueryServiceImpl.Query d request (F := F)).1.length).map
            Int.ofNat ∧
      ((ServerD.FireQueryServiceImpl.Query d request (F := F)).1.filter
        (fun c => c.is_last_chunk)).length = 1 ∧
      (ServerD.FireQueryServiceImpl.Query d request (F := F)).1.getLast?.map
        (fun c => c.is_last_chunk) = some true ∧
      (((ServerD.FireQueryServiceImpl.Query d request (F := F)).1.map
        (fun c => c.measurements.length)).sum : Int) = T) :=
  ⟨paging_contract_single request _ rfl, paging_contract_single request _ rfl⟩

end lifecycleClaims

/-! ## Append-only frame and in-bounds selection -/

theorem range_map_getElem? {α : Type} (l : List α) :
    (List.range l.length).map (fun p => l[p]?) = l.map some := by
  apply List.ext_getElem?
  intro i
  by_cases hi : i < l.length
  · simp [List.getElem?_map, List.getElem?_range hi, List.getElem?_eq_getElem hi]
  · have hi' : l.length ≤ i := Nat.le_of_not_lt hi
    simp [List.getElem?_map, List.getElem?_eq_none, hi']

theorem foldl_push_all (l acc : List Nat) :
    l.foldl (fun matching_indices i => matching_indices ++ [i]) acc = acc ++ l := by
  induction l generalizing acc with
  | nil => simp
  | cons i l ih => rw [List.foldl_cons, ih]; simp

namespace FireQueryServiceImpl

section selectionLemmas

variable {F : Type} [Zero F] [LT F] [DecidableRel (LT.lt : F → F → Prop)]

omit [Zero F] [LT F] [DecidableRel (LT.lt : F → F → Prop)] in
theorem matchingIndices_no_filter (s : FireQueryServiceImpl F) (request : InternalQueryRequest)
    (hf : request.filter = none) :
    matchingIndices s request = List.range s.data_model_.measurementCount := by
  simp [matchingIndices, hf, foldl_push_all]

theorem matchingIndices_lt (s : FireQueryServiceImpl F) (request : InternalQueryRequest)
    (rs : List (FireMeasurement F)) (hd : s.data_model_ = FireColumnModel.ofInserts rs) :
    ∀ p ∈ matchingIndices s request, p < rs.length := by
  intro p hp
  cases hf : request.filter with
  | none =>
    rw [matchingIndices_no_filter s request hf, hd, FireColumnModel.measurementCount,
      FireColumnModel.ofInserts_latitudes, List.length_map] at hp
    exact List.mem_range.mp hp
  | some filter =>
    simp only [matchingIndices, hf, hd] at hp
    split_ifs at hp with h1 h2 h3
    · rw [FireColumnModel.getIndicesByParameter_ofInserts] at hp
      have := positionsOf_lt _ _ _ hp
      rwa [FireColumnModel.ofInserts_parameters, List.length_map] at this
    · rw [FireColumnModel.getIndicesBySite_ofInserts] at hp
      have := positionsOf_lt _ _ _ hp
      rwa [FireColumnModel.ofInserts_siteNames, List.length_map] at this
    · rw [aqiRangeScan_eq_filter] at hp
      have := List.mem_range.mp (List.mem_filter.mp hp).1
      rwa [FireColumnModel.ofInserts_aqis, List.length_map] at this
    · exact absurd hp (List.not_mem_nil p)

end selectionLemmas

end FireQueryServiceImpl

section frameClaims

open FireColumnModel FireQueryServiceImpl

variable {F : Type} [Zero F] [LT F] [DecidableRel (LT.lt : F → F → Prop)]

/-- C18. Append-only frame: on the store built by the inserts `rs`, one more
`insertMeasurement` leaves every existing row unchanged (each of the thirteen columns has the
same value at every position below `rs.length`), and for every key each index list after the
insert is the list before it, followed by the new position `rs.length` exactly when the key is
the new record's own site name, parameter or station code. -/
theorem append_only_frame (rs : List (FireMeasurement F)) (r : FireMeasurement F)
    (k : String) :
    (∀ i : Fin rs.length,
      (insert (ofInserts rs) r).latitudes[i.val]? = (ofInserts rs).latitudes[i.val]? ∧
      (insert (ofInserts rs) r).longitudes[i.val]? = (ofInserts rs).longitudes[i.val]? ∧
      (insert (ofInserts rs) r).datetimes[i.val]? = (ofInserts rs).datetimes[i.val]? ∧
      (insert (ofInserts rs) r).parameters[i.val]? = (ofInserts rs).parameters[i.val]? ∧
      (insert (ofInserts rs) r).concentrations[i.val]?
        = (ofInserts rs).concentrations[i.val]? ∧
      (insert (ofInserts rs) r).units[i.val]? = (ofInserts rs).units[i.val]? ∧
      (insert (ofInserts rs) r).rawConcentrations[i.val]?
        = (ofInserts rs).rawConcentrations[i.val]? ∧
      (insert (ofInserts rs) r).aqis[i.val]? = (ofInserts rs).aqis[i.val]? ∧
      (insert (ofInserts rs) r).categories[i.val]? = (ofInserts rs).categories[i.val]? ∧
      (insert (ofInserts rs) r).siteNames[i.val]? = (ofInserts rs).siteNames[i.val]? ∧
      (insert (ofInserts rs) r).agencyNames[i.val]? = (ofInserts rs).agencyNames[i.val]? ∧
      (insert (ofInserts rs) r).aqsCodes[i.val]? = (ofInserts rs).aqsCodes[i.val]? ∧
      (insert (ofInserts rs) r).fullAqsCodes[i.val]? = (ofInserts rs).fullAqsCodes[i.val]? ∧
      (ofInserts rs).latitudes[i.val]? = some (rs.get i).latitude) ∧
    getIndicesBySite (insert (ofInserts rs) r) k =
      getIndicesBySite (ofInserts rs) k ++ (if k = r.site_name then [rs.length] else []) ∧
    getIndicesByParameter (insert (ofInserts rs) r) k =
      getIndicesByParameter (ofInserts rs) k ++ (if k = r.parameter then [rs.length] else []) ∧
    getIndicesByAqsCode (insert (ofInserts rs) r) k =
      getIndicesByAqsCode (ofInserts rs) k ++ (if k = r.aqs_code then [rs.length] else []) := by
  have hs : insert (ofInserts rs) r = ofInserts (rs ++ [r]) := (ofInserts_snoc rs r).symm
  refine ⟨fun i => ?_, ?_, ?_, ?_⟩
  · have hi := i.isLt
    simp only [insert_latitudes, insert_longitudes, insert_datetimes, insert_parameters,
      insert_concentrations, insert_units, insert_rawConcentrations, insert_aqis,
      insert_categories, insert_siteNames, insert_agencyNames, insert_aqsCodes,
      insert_fullAqsCodes, ofInserts_latitudes, ofInserts_longitudes, ofInserts_datetimes,
      ofInserts_parameters, ofInserts_concentrations, ofInserts_units,
      ofInserts_rawConcentrations, ofInserts_aqis, ofInserts_categories, ofInserts_siteNames,
      ofInserts_agencyNames, ofInserts_aqsCodes, ofInserts_fullAqsCodes]
    simp [List.getElem?_append_left, hi, List.getElem?_eq_getElem]
  · rw [hs, getIndicesBySite_ofInserts, getIndicesBySite_ofInserts, ofInserts_siteNames,
      ofInserts_siteNames, List.map_append, List.map_singleton, positionsOf_snoc,
      List.length_map]
    by_cases h : k = r.site_name
    · simp [h]
    · have h' : ¬ r.site_name = k := fun e => h e.symm
      simp [h, h']
  · rw [hs, getIndicesByParameter_ofInserts, getIndicesByParameter_ofInserts,
      ofInserts_parameters, ofInserts_parameters, List.map_append, List.map_singleton,
      positionsOf_snoc, List.length_map]
    by_cases h : k = r.parameter
    · simp [h]
    · have h' : ¬ r.parameter = k := fun e => h e.symm
      simp [h, h']
  · rw [hs, getIndicesByAqsCode_ofInserts, getIndicesByAqsCode_ofInserts, ofInserts_aqsCodes,
      ofInserts_aqsCodes, List.map_append, List.map_singleton, positionsOf_snoc,
      List.length_map]
    by_cases h : k = r.aqs_code
    · simp [h]
    · have h' : ¬ r.aqs_code = k := fun e => h e.symm
      simp [h, h']

/-- C19. In-bounds selection: on a worker whose store was built by inserts only, for every
`InternalQuery` request every selected row position is below `measurementCount()`, so the
thirteen column reads of the response loop are in bounds and the call returns its response;
and in one more `insertMeasurement` the guard of `updateIndices` (`index >= _site_names.size()`)
is false, so the new position is pushed back in all three indices. -/
theorem selection_in_bounds (process_id role team : String) (port : Int)
    (rs : List (FireMeasurement F)) (request : InternalQueryRequest) (r : FireMeasurement F) :
    (∀ p ∈ matchingIndices ⟨process_id, role, team, port, ofInserts rs⟩ request,
      p < (ofInserts rs).measurementCount) ∧
    (InternalQuery ⟨process_id, role, team, port, ofInserts rs⟩ request).isSome = true ∧
    ¬ (((ofInserts rs).latitudes ++ [r.latitude]).length - 1
        ≥ ((ofInserts rs).siteNames ++ [r.site_name]).length) ∧
    (insert (ofInserts rs) r).site_indices
        = (ofInserts rs).site_indices.pushBack r.site_name rs.length ∧
    (insert (ofInserts rs) r).parameter_indices
        = (ofInserts rs).parameter_indices.pushBack r.parameter rs.length ∧
    (insert (ofInserts rs) r).aqs_indices
        = (ofInserts rs).aqs_indices.pushBack r.aqs_code rs.length := by
  have hl := ofInserts_length_eq rs
  have hlt := matchingIndices_lt ⟨process_id, role, team, port, ofInserts rs⟩ request rs rfl
  refine ⟨?_, ?_, ?_, ?_, ?_, ?_⟩
  · intro p hp
    rw [measurementCount, hl.2.2.2]
    exact hlt p hp
  · obtain ⟨ms, hms, -⟩ := materialize_loop rs _ hlt []
    unfold InternalQuery materialize
    rw [hms]
    rfl
  · simp only [List.length_append, List.length_singleton, hl.1, ge_iff_le]
    omega
  · rw [insert_site_indices _ _ hl.1, hl.2.2.2]
  · rw [insert_parameter_indices _ _ hl.1 hl.2.1, hl.2.2.2]
  · rw [insert_aqs_indices _ _ hl.1 hl.2.2.1, hl.2.2.2]

/-- C20. Absent filter: a request that carries no filter makes the worker select the row
positions 0, 1, ..., N-1 in increasing order, N being `measurementCount()`; when the store was
built by the inserts `rs`, the response holds exactly the inserted records, one per stored row
in row order. -/
theorem absent_filter_all_rows (s : FireQueryServiceImpl F) (request : InternalQueryRequest)
    (rs : List (FireMeasurement F)) (hf : request.filter = none)
    (hd : s.data_model_ = ofInserts rs) :
    matchingIndices s request = List.range s.data_model_.measurementCount ∧
    s.data_model_.measurementCount = rs.length ∧
    (InternalQuery s request).map (fun response => response.measurements) = some rs := by
  have hsel := matchingIndices_no_filter s request hf
  have hcount : s.data_model_.measurementCount = rs.length := by
    rw [hd, measurementCount, ofInserts_latitudes, List.length_map]
  refine ⟨hsel, hcount, ?_⟩
  obtain ⟨ms, hms, hmap⟩ :=
    materialize_loop rs (List.range rs.length) (fun p hp => List.mem_range.mp hp) []
  rw [range_map_getElem?] at hmap
  have hrs : ms = rs := List.map_injective_iff.mpr (Option.some_injective _) hmap
  unfold InternalQuery materialize
  rw [hsel, hcount, hd, hms, hrs]
  rfl

/-- C20 on the three-row example store: without a filter the worker selects the rows 0, 1, 2
and answers with the three inserted records in order. -/
theorem absent_filter_all_rows_witness :
    matchingIndices priorityWorker (leaderRequest none) = [0, 1, 2] ∧
    (matchingIndices priorityWorker (leaderRequest none)
        = List.range priorityWorker.data_model_.measurementCount ∧
      priorityWorker.data_model_.measurementCount = priorityRows.length ∧
      (InternalQuery priorityWorker (leaderRequest none)).map
        (fun response => response.measurements) = some priorityRows) :=
  ⟨by decide, absent_filter_all_rows priorityWorker (leaderRequest none) priorityRows rfl rfl⟩

end frameClaims
